import Mathlib

/-!
# qwork: the queue front-end, embedded and verified

A shallow embedding of `qwork.go` (package `main`): the timestamp codec
`UnixTime`, the `Message` data model, the snapshot decoder of `fetchQueue`,
the two menus (`Messages.Menu`, `menu`) and the session loop of `main`.

Conventions of the embedding.

* Go strings and byte slices are lists of Unicode code points (`Str`); the
  inputs considered are therefore valid UTF-8.
* Machine integers are `Nat`/`Int` with explicit wrap-around: `uint64` is
  reduced modulo `2^64`, `int64` and `int` (64-bit platform) by `wrapInt64`.
* `log.Fatal` and `os.Exit` end the process; a run is described by the events
  it emitted and the way it ended.
* Standard input is a sequence of `ReadString` results, one per call (a
  terminal in line mode), so re-creating the buffered reader loses nothing.
* The Go standard library (`strings`, `strconv`, `time`, `fmt`,
  `encoding/json`) is modelled after its documented behaviour, in the
  namespaces of the same names.
-/

namespace Qwork

/-- Go strings (and byte slices holding text), as code point lists. -/
abbrev Str := List Char

/-! ## `unicode` and `strings` -/

namespace unicode

/-- `unicode.IsSpace`: the Latin-1 spaces and the code points with the
White_Space property. -/
def IsSpace (c : Char) : Bool :=
  let n := c.toNat
  (9 ≤ n && n ≤ 13) || n = 0x20 || n = 0x85 || n = 0xA0 || n = 0x1680 ||
  (0x2000 ≤ n && n ≤ 0x200A) || n = 0x2028 || n = 0x2029 || n = 0x202F ||
  n = 0x205F || n = 0x3000

end unicode

namespace strings

/-- `strings.TrimFunc(s, f)`: drop the leading and trailing code points that
satisfy `f`. -/
def TrimFunc (s : Str) (f : Char → Bool) : Str :=
  ((s.dropWhile f).reverse.dropWhile f).reverse

/-- `strings.TrimSpace`. -/
def TrimSpace (s : Str) : Str := TrimFunc s unicode.IsSpace

/-- `strings.Trim(s, cutset)`. -/
def Trim (s : Str) (cutset : Str) : Str := TrimFunc s (fun c => cutset.elem c)

/-- `strings.Split(s, "\n")`: the pieces between line feeds; always at least
one piece. -/
def SplitLines : Str → List Str
  | [] => [[]]
  | c :: cs =>
    if c.toNat = 10 then [] :: SplitLines cs
    else
      match SplitLines cs with
      | [] => [[c]]
      | l :: ls => (c :: l) :: ls

end strings

/-! ## Machine integers -/

/-- Two's complement reduction of an integer to `int64` (also Go's `int` on a
64-bit platform). -/
def wrapInt64 (x : Int) : Int := (x + 2 ^ 63) % 2 ^ 64 - 2 ^ 63

/-- Reduction of a natural number to `uint64`. -/
def wrapUint64 (x : Nat) : Nat := x % 2 ^ 64

/-! ## `strconv` -/

namespace strconv

/-- The two failure kinds of `strconv.NumError`. -/
inductive NumError where
  | ErrSyntax
  | ErrRange
  deriving DecidableEq, Repr

/-- The largest `uint64`. -/
def maxUint64 : Nat := 2 ^ 64 - 1

/-- The smallest number such that `cutoff * 10 > maxUint64`. -/
def cutoff : Nat := maxUint64 / 10 + 1

/-- The digit loop of `strconv.ParseUint(s, 10, 64)`, with `n` the value
accumulated so far. A byte that is not a decimal digit is a syntax error
(letters are digits of value ten or more, rejected in base ten). -/
def parseUintLoop : Str → Nat → Nat × Option NumError
  | [], n => (n, none)
  | c :: cs, n =>
    if 48 ≤ c.toNat ∧ c.toNat ≤ 57 then
      let d := c.toNat - 48
      if n ≥ cutoff then (maxUint64, some .ErrRange)
      else
        let n10 := n * 10
        let n1 := wrapUint64 (n10 + d)
        if n1 < n10 ∨ n1 > maxUint64 then (maxUint64, some .ErrRange)
        else parseUintLoop cs n1
    else (0, some .ErrSyntax)

/-- `strconv.ParseUint(s, 10, 64)`: the value and the error (`none` is Go's
`nil`). -/
def ParseUint (s : Str) : Nat × Option NumError :=
  match s with
  | [] => (0, some .ErrSyntax)
  | _ :: _ => parseUintLoop s 0

/-- `strconv.ParseInt(s, 10, 64)`. -/
def ParseInt (s : Str) : Int × Option NumError :=
  match s with
  | [] => (0, some .ErrSyntax)
  | c :: cs =>
    let neg : Bool := c.toNat = 45
    let body : Str := if c.toNat = 43 ∨ c.toNat = 45 then cs else s
    let r := ParseUint body
    if r.2 = some .ErrSyntax then (0, some .ErrSyntax)
    else if !neg && decide (r.1 ≥ 2 ^ 63) then (2 ^ 63 - 1, some .ErrRange)
    else if neg && decide (r.1 > 2 ^ 63) then (-(2 ^ 63), some .ErrRange)
    else
      let n := wrapInt64 (r.1 : Int)
      (if neg then wrapInt64 (-n) else n, none)

/-- The decimal digit of value `d`. -/
def digitChar (d : Nat) : Char := Char.ofNat (48 + d)

/-- Decimal digits of `n`, most significant first; `fuel` bounds the number
of digits. -/
def formatDigits : Nat → Nat → Str
  | 0, _ => []
  | fuel + 1, n =>
    if n < 10 then [digitChar n]
    else formatDigits fuel (n / 10) ++ [digitChar (n % 10)]

/-- `strconv.FormatUint(n, 10)`. -/
def FormatUint (n : Nat) : Str := formatDigits (n + 1) n

/-- `strconv.FormatInt(i, 10)`. -/
def FormatInt (i : Int) : Str :=
  if i < 0 then Char.ofNat 45 :: FormatUint i.natAbs else FormatUint i.natAbs

end strconv

/-! ## `fmt` -/

namespace fmt

/-- What `fmt` prints for an operand under a verb its type does not support:
`%!verb(type=value)`. -/
def badVerb (verb : Char) (typ : Str) (value : Str) : Str :=
  "%!".toList ++ [verb] ++ "(".toList ++ typ ++ "=".toList ++ value ++ ")".toList

/-- The verb `%Nd` on an integer: decimal, padded with spaces on the left to
width `N`. -/
def padInt (width : Nat) (i : Int) : Str :=
  let s := strconv.FormatInt i
  List.replicate (width - s.length) (Char.ofNat 32) ++ s

end fmt

/-! ## `time` -/

namespace time

/-- The location pointer of a `Time`: `nil` (UTC) or `Local`. -/
inductive Location where
  | UTC
  | Local
  deriving DecidableEq, Repr

/-- Seconds from January 1, year 1 to January 1, 1970. -/
def unixToInternal : Int := (1969 * 365 + 1969 / 4 - 1969 / 100 + 1969 / 400) * 86400

/-- Seconds from January 1, year 1 to January 1, 1885. -/
def wallToInternal : Int := (1884 * 365 + 1884 / 4 - 1884 / 100 + 1884 / 400) * 86400

/-- The Go `time.Time` struct: `wall` (`uint64`), `ext` (`int64`) and `loc`.
Without the monotonic flag (bit 63 of `wall`), `ext` is the number of
seconds since January 1, year 1 and the low 30 bits of `wall` are the
nanoseconds. -/
structure Time where
  wall : Nat
  ext : Int
  loc : Location
  deriving DecidableEq, Repr

/-- The zero value `time.Time{}`: January 1, year 1, 00:00:00 UTC. -/
def Time.zero : Time := ⟨0, 0, .UTC⟩

/-- `Time.sec`: seconds since January 1, year 1. -/
def Time.sec (t : Time) : Int :=
  if t.wall / 2 ^ 63 % 2 = 1 then
    wrapInt64 (wallToInternal + (((t.wall * 2 % 2 ^ 64) / 2 ^ 31 : Nat) : Int))
  else t.ext

/-- `Time.nsec`: the nanoseconds within the second. -/
def Time.nsec (t : Time) : Int := ((t.wall % 2 ^ 30 : Nat) : Int)

/-- `Time.Unix`: seconds since the Unix epoch, in `int64` arithmetic. -/
def Time.Unix (t : Time) : Int := wrapInt64 (t.sec - unixToInternal)

/-- `Time.UnixNano`: nanoseconds since the Unix epoch, in `int64`
arithmetic. -/
def Time.UnixNano (t : Time) : Int := wrapInt64 (t.Unix * 1000000000 + t.nsec)

/-- `Time.After`. -/
def Time.After (t u : Time) : Bool :=
  if t.wall / 2 ^ 63 % 2 = 1 ∧ u.wall / 2 ^ 63 % 2 = 1 then decide (t.ext > u.ext)
  else decide (t.sec > u.sec) || (decide (t.sec = u.sec) && decide (t.nsec > u.nsec))

/-- `Time.Before`. -/
def Time.Before (t u : Time) : Bool :=
  if t.wall / 2 ^ 63 % 2 = 1 ∧ u.wall / 2 ^ 63 % 2 = 1 then decide (t.ext < u.ext)
  else decide (t.sec < u.sec) || (decide (t.sec = u.sec) && decide (t.nsec < u.nsec))

/-- `time.Unix(sec, nsec)`: the `nsec` operand is first brought into
`[0, 1e9)`, then the struct is built with `sec + unixToInternal` computed in
`int64`. -/
def Unix (sec nsec : Int) : Time :=
  let out : Bool := decide (nsec < 0) || decide (nsec ≥ 1000000000)
  let n : Int := Int.tdiv nsec 1000000000
  let sec1 : Int := if out then wrapInt64 (sec + n) else sec
  let nsec1 : Int := if out then wrapInt64 (nsec - wrapInt64 (n * 1000000000)) else nsec
  let sec2 : Int := if out && decide (nsec1 < 0) then wrapInt64 (sec1 - 1) else sec1
  let nsec2 : Int := if out && decide (nsec1 < 0) then nsec1 + 1000000000 else nsec1
  ⟨nsec2.toNat, wrapInt64 (sec2 + unixToInternal), .Local⟩

end time

/-! ## Errors and process ends -/

/-- The Go `error` values that occur in the program. -/
inductive GoError where
  /-- A `strconv.NumError`: the failure kind and the offending text. -/
  | num (kind : strconv.NumError) (text : Str)
  /-- A `json.SyntaxError`. -/
  | jsonSyntax
  /-- A `json.UnmarshalTypeError`. -/
  | jsonType
  /-- The error of `exec.LookPath` for an executable that is not found. -/
  | notFound (file : Str)
  /-- The error of an external command that could not run or failed. -/
  | exitError
  /-- The `fmt.Errorf("There are no messages to choose from.")` of `Menu`. -/
  | noMessages
  deriving DecidableEq, Repr

/-- A computation that `log.Fatal` may abort: `error e` is the process ended
by `log.Fatal(e)` (exit status 1), `ok a` is normal completion. -/
abbrev Fallible (α : Type) := Except GoError α

/-! ## `encoding/json`, as far as `json.Unmarshal` into a `Message` needs it -/

namespace json

/-- A syntactically valid JSON text. String and number literals are kept as
written; an object member carries, besides its value, the exact source text
of the value, which is what an `Unmarshaler` receives. -/
inductive Value where
  | null
  | bool (b : Bool)
  | number (lit : Str)
  | string (lit : Str)
  | array (elems : List Value)
  | object (members : List (Str × Str × Value))

/-- JSON white space: space, tab, carriage return, line feed. -/
def isSpace (c : Char) : Bool :=
  c.toNat = 32 || c.toNat = 9 || c.toNat = 13 || c.toNat = 10

/-- Skip JSON white space. -/
def skipSpace (s : Str) : Str := s.dropWhile isSpace

/-- A decimal digit. -/
def isDigit (c : Char) : Bool := 48 ≤ c.toNat && c.toNat ≤ 57

/-- A hexadecimal digit. -/
def isHex (c : Char) : Bool :=
  isDigit c || (97 ≤ c.toNat && c.toNat ≤ 102) || (65 ≤ c.toNat && c.toNat ≤ 70)

/-- The characters allowed after a backslash, `u` apart: `"`, `\`, `/`, `b`,
`f`, `n`, `r`, `t`. -/
def isSimpleEscape (c : Char) : Bool :=
  c.toNat = 34 || c.toNat = 92 || c.toNat = 47 || c.toNat = 98 || c.toNat = 102 ||
  c.toNat = 110 || c.toNat = 114 || c.toNat = 116

/-- Scan a string literal after its opening quote: the text up to the closing
quote, and what follows it. Control characters and malformed escapes are
syntax errors. -/
def scanString : Nat → Str → Option (Str × Str)
  | 0, _ => none
  | fuel + 1, s =>
    match s with
    | [] => none
    | c :: cs =>
      if c.toNat = 34 then some ([], cs)
      else if c.toNat = 92 then
        match cs with
        | [] => none
        | e :: rest =>
          if isSimpleEscape e then
            (scanString fuel rest).map (fun p => (c :: e :: p.1, p.2))
          else if e.toNat = 117 then
            if (rest.take 4).length = 4 ∧ (rest.take 4).all isHex then
              (scanString fuel (rest.drop 4)).map (fun p => (c :: e :: rest.take 4 ++ p.1, p.2))
            else none
          else none
      else if c.toNat < 32 then none
      else (scanString fuel cs).map (fun p => (c :: p.1, p.2))

/-- One or more decimal digits: the digits and what follows. -/
def scanDigits (s : Str) : Option (Str × Str) :=
  if s.takeWhile isDigit = [] then none else some (s.takeWhile isDigit, s.dropWhile isDigit)

/-- The optional exponent of a number. -/
def scanExponent (s : Str) : Option (Str × Str) :=
  match s with
  | c :: cs =>
    if c.toNat = 101 ∨ c.toNat = 69 then
      match cs with
      | g :: gs =>
        if g.toNat = 43 ∨ g.toNat = 45 then
          (scanDigits gs).map (fun p => (c :: g :: p.1, p.2))
        else (scanDigits cs).map (fun p => (c :: p.1, p.2))
      | [] => none
    else some ([], s)
  | [] => some ([], s)

/-- The optional fraction of a number, followed by the optional exponent. -/
def scanFraction (s : Str) : Option (Str × Str) :=
  match s with
  | c :: cs =>
    if c.toNat = 46 then
      match scanDigits cs with
      | some (ds, r) => (scanExponent r).map (fun p => (c :: ds ++ p.1, p.2))
      | none => none
    else scanExponent s
  | [] => some ([], s)

/-- The digits of a number after the optional minus sign: `0`, or a nonzero
digit followed by digits; then fraction and exponent. -/
def scanUnsigned (s : Str) : Option (Str × Str) :=
  match s with
  | c :: cs =>
    if c.toNat = 48 then (scanFraction cs).map (fun p => (c :: p.1, p.2))
    else if 49 ≤ c.toNat ∧ c.toNat ≤ 57 then
      (scanFraction (cs.dropWhile isDigit)).map
        (fun p => (c :: cs.takeWhile isDigit ++ p.1, p.2))
    else none
  | [] => none

/-- Scan a number literal. -/
def scanNumber (s : Str) : Option (Str × Str) :=
  match s with
  | c :: cs =>
    if c.toNat = 45 then (scanUnsigned cs).map (fun p => (c :: p.1, p.2))
    else scanUnsigned s
  | [] => none

/-- Scan the literal `word` (`true`, `false` or `null`). -/
def scanWord (word : Str) (s : Str) : Option Str :=
  if s.take word.length = word then some (s.drop word.length) else none

/-- The deepest nesting of objects and arrays the scanner accepts
(`maxNestingDepth` in `scanner.go`). -/
def maxNestingDepth : Nat := 10000

mutual

/-- Scan one value at the head of `s` (white space already skipped): the
value and the rest of the text. `depth` is the number of objects and arrays
open around the value; an opening brace or bracket that would make it exceed
`maxNestingDepth` is a syntax error (`pushParseState`: exceeded max depth). -/
def scanValue : Nat → Nat → Str → Option (Value × Str)
  | 0, _, _ => none
  | fuel + 1, depth, s =>
    match s with
    | [] => none
    | c :: cs =>
      if c.toNat = 123 then
        if maxNestingDepth < depth + 1 then none
        else
          match skipSpace cs with
          | [] => none
          | d :: ds =>
            if d.toNat = 125 then some (.object [], ds)
            else (scanMembers fuel (depth + 1) (d :: ds)).map (fun p => (.object p.1, p.2))
      else if c.toNat = 91 then
        if maxNestingDepth < depth + 1 then none
        else
          match skipSpace cs with
          | [] => none
          | d :: ds =>
            if d.toNat = 93 then some (.array [], ds)
            else (scanElems fuel (depth + 1) (d :: ds)).map (fun p => (.array p.1, p.2))
      else if c.toNat = 34 then (scanString fuel cs).map (fun p => (.string p.1, p.2))
      else if c.toNat = 116 then (scanWord "true".toList s).map (fun r => (.bool true, r))
      else if c.toNat = 102 then (scanWord "false".toList s).map (fun r => (.bool false, r))
      else if c.toNat = 110 then (scanWord "null".toList s).map (fun r => (.null, r))
      else (scanNumber s).map (fun p => (.number p.1, p.2))

/-- Scan the members of a nonempty object, `s` standing where a key must
begin, up to and including the closing brace; `depth` counts this object. -/
def scanMembers : Nat → Nat → Str → Option (List (Str × Str × Value) × Str)
  | 0, _, _ => none
  | fuel + 1, depth, s =>
    match s with
    | [] => none
    | q :: afterQuote =>
      if q.toNat = 34 then
        match scanString fuel afterQuote with
        | none => none
        | some (key, r1) =>
          match skipSpace r1 with
          | [] => none
          | colon :: r2 =>
            if colon.toNat = 58 then
              match scanValue fuel depth (skipSpace r2) with
              | none => none
              | some (v, r3) =>
                let raw := (skipSpace r2).take ((skipSpace r2).length - r3.length)
                match skipSpace r3 with
                | [] => none
                | sep :: r4 =>
                  if sep.toNat = 44 then
                    (scanMembers fuel depth (skipSpace r4)).map (fun p => ((key, raw, v) :: p.1, p.2))
                  else if sep.toNat = 125 then some ([(key, raw, v)], r4)
                  else none
            else none
      else none

/-- Scan the elements of a nonempty array, `s` standing where a value must
begin, up to and including the closing bracket; `depth` counts this array. -/
def scanElems : Nat → Nat → Str → Option (List Value × Str)
  | 0, _, _ => none
  | fuel + 1, depth, s =>
    match scanValue fuel depth s with
    | none => none
    | some (v, r1) =>
      match skipSpace r1 with
      | [] => none
      | sep :: r2 =>
        if sep.toNat = 44 then
          (scanElems fuel depth (skipSpace r2)).map (fun p => (v :: p.1, p.2))
        else if sep.toNat = 93 then some ([v], r2)
        else none

end

/-- The validity check of `json.Unmarshal`: the whole text is one value
surrounded by optional white space, nested no deeper than `maxNestingDepth`.
Between two nested calls of the scanner at most two units of fuel are spent
for each character consumed, so twice the length of the text is fuel enough
(`parse_fuel`). -/
def parse (data : Str) : Option Value :=
  match scanValue (2 * data.length + 2) 0 (skipSpace data) with
  | some (v, rest) => if skipSpace rest = [] then some v else none
  | none => none

/-- The value of a hexadecimal digit. -/
def hexVal (c : Char) : Nat :=
  if isDigit c then c.toNat - 48
  else if 97 ≤ c.toNat then c.toNat - 87
  else c.toNat - 55

/-- Decode `\uXXXX` at the head of `s` (`getu4`); `none` when `s` does not
start with such an escape. -/
def getu4 (s : Str) : Option Nat :=
  match s with
  | b :: u :: h1 :: h2 :: h3 :: h4 :: _ =>
    if b.toNat = 92 ∧ u.toNat = 117 ∧ isHex h1 ∧ isHex h2 ∧ isHex h3 ∧ isHex h4 then
      some (((hexVal h1 * 16 + hexVal h2) * 16 + hexVal h3) * 16 + hexVal h4)
    else none
  | _ => none

/-- `utf16.DecodeRune`: the code point of a surrogate pair, `none` for
anything else (Go returns the replacement character). -/
def decodeSurrogates (r1 : Nat) (r2 : Option Nat) : Option Nat :=
  match r2 with
  | some r2 =>
    if 0xD800 ≤ r1 ∧ r1 < 0xDC00 ∧ 0xDC00 ≤ r2 ∧ r2 < 0xE000 then
      some ((r1 - 0xD800) * 1024 + (r2 - 0xDC00) + 0x10000)
    else none
  | none => none

/-- The character a simple escape stands for. -/
def escapeChar (e : Char) : Char :=
  if e.toNat = 98 then Char.ofNat 8
  else if e.toNat = 102 then Char.ofNat 12
  else if e.toNat = 110 then Char.ofNat 10
  else if e.toNat = 114 then Char.ofNat 13
  else if e.toNat = 116 then Char.ofNat 9
  else e

/-- The text a scanned string literal denotes (`unquote`): escapes are
replaced, an unpaired surrogate escape becomes U+FFFD. -/
def unquoteLoop : Nat → Str → Str
  | 0, _ => []
  | fuel + 1, s =>
    match s with
    | [] => []
    | c :: cs =>
      if c.toNat = 92 then
        match cs with
        | [] => []
        | e :: rest =>
          if e.toNat = 117 then
            match getu4 s with
            | none => []
            | some rr =>
              if 0xD800 ≤ rr ∧ rr < 0xE000 then
                match decodeSurrogates rr (getu4 (s.drop 6)) with
                | some dec => Char.ofNat dec :: unquoteLoop fuel (s.drop 12)
                | none => Char.ofNat 0xFFFD :: unquoteLoop fuel (s.drop 6)
              else Char.ofNat rr :: unquoteLoop fuel (s.drop 6)
          else escapeChar e :: unquoteLoop fuel rest
      else c :: unquoteLoop fuel cs

/-- The text of a scanned string literal. Every step of the loop consumes at
least one character, so the length of the literal is fuel enough. -/
def unquote (lit : Str) : Str := unquoteLoop lit.length lit

/-- Case folding of one code point as `bytes.EqualFold` sees it on names
made of ASCII letters: lower case ASCII to upper case, the long s to `S`,
the Kelvin sign to `K`. -/
def foldRune (c : Char) : Char :=
  if 97 ≤ c.toNat ∧ c.toNat ≤ 122 then Char.ofNat (c.toNat - 32)
  else if c.toNat = 0x17F then Char.ofNat 83
  else if c.toNat = 0x212A then Char.ofNat 75
  else c

/-- The struct field a JSON key selects: an exact match of the tag name
first, a match up to case folding otherwise. -/
def findField {α : Type} (fields : List (Str × α)) (key : Str) : Option α :=
  match fields.find? (fun f => decide (f.1 = key)) with
  | some f => some f.2
  | none =>
    (fields.find? (fun f => decide (f.1.map foldRune = key.map foldRune))).map (fun f => f.2)

/-- Store a JSON value into a Go `string`: the new content and the type
error, if any. `null` leaves the variable as it is; anything but a string is
a type error. -/
def storeString (cur : Str) (v : Value) : Str × Option GoError :=
  match v with
  | .string lit => (unquote lit, none)
  | .null => (cur, none)
  | _ => (cur, some .jsonType)

/-- Store a JSON value into a Go `int`: a number literal must be accepted by
`strconv.ParseInt`. -/
def storeInt (cur : Int) (v : Value) : Int × Option GoError :=
  match v with
  | .number lit =>
    match strconv.ParseInt lit with
    | (n, none) => (n, none)
    | (_, some _) => (cur, some .jsonType)
  | .null => (cur, none)
  | _ => (cur, some .jsonType)

end json

/-! ## The data model (`qwork.go`, lines 18 to 74) -/

/-- `type UnixTime struct { time.Time }`. -/
structure UnixTime where
  Time : time.Time
  deriving DecidableEq, Repr

/-- `func (ut *UnixTime) UnmarshalJSON(b []byte) (err error)`: the receiver
after the call; the returned `err` is always `nil`, and a text that
`strconv.ParseInt` rejects ends the process through `log.Fatal`. -/
def UnixTime.UnmarshalJSON (_ut : UnixTime) (b : Str) : Fallible UnixTime :=
  let s := strings.Trim b [Char.ofNat 34]
  if s = "null".toList then .ok ⟨time.Time.zero⟩
  else
    match strconv.ParseInt s with
    | (timei, none) => .ok ⟨time.Unix timei 0⟩
    | (_, some e) => .error (.num e s)

/-- `func (ut *UnixTime) MarshalJSON() ([]byte, error)`: the bytes (the error
is always `nil`). The format string is `"\"%i\""`, and `%i` is not a verb of
`fmt`, so an `int64` operand is printed as `%!i(int64=...)`. -/
def UnixTime.MarshalJSON (ut : UnixTime) : Str :=
  if ut.Time.UnixNano = time.Time.zero.UnixNano then "null".toList
  else
    [Char.ofNat 34] ++
      fmt.badVerb (Char.ofNat 105) "int64".toList (strconv.FormatInt ut.Time.Unix) ++
      [Char.ofNat 34]

/-- `func (ut *UnixTime) IsSet() bool`. -/
def UnixTime.IsSet (ut : UnixTime) : Bool :=
  decide (ut.Time.UnixNano ≠ time.Time.zero.UnixNano)

/-- `type Recipient struct`. -/
structure Recipient where
  Address : Str
  Reason : Str
  deriving DecidableEq, Repr

/-- `type Message struct`. -/
structure Message where
  Queue : Str
  Id : Str
  Time : UnixTime
  Size : Int
  Sender : Str
  Recipients : List Recipient
  deriving DecidableEq, Repr

/-- The zero value `Message{}`. -/
def Message.empty : Message := ⟨[], [], ⟨time.Time.zero⟩, 0, [], []⟩

/-- The zero value `Recipient{}`. -/
def Recipient.empty : Recipient := ⟨[], []⟩

/-- `func (m Message) QueueChar() string`. -/
def Message.QueueChar (m : Message) : Str :=
  if m.Queue = "deferred".toList then " ".toList
  else if m.Queue = "active".toList then "*".toList
  else if m.Queue = "hold".toList then "!".toList
  else m.Queue

/-- `type Messages []Message`. -/
abbrev Messages := List Message

/-! ## `json.Unmarshal` into a `Message` -/

/-- The first of two optional errors: the decoder keeps the first type error
it meets and goes on. -/
def firstError (a b : Option GoError) : Option GoError :=
  match a with
  | some e => some e
  | none => b

/-- The fields of `Recipient`. -/
inductive RecipientField where
  | Address
  | Reason
  deriving DecidableEq, Repr

/-- The JSON tags of `Recipient`. -/
def Recipient.fields : List (Str × RecipientField) :=
  [("address".toList, .Address), ("delay_reason".toList, .Reason)]

/-- Store one object member into a `Recipient`; an unknown key is skipped. -/
def Recipient.storeMember (acc : Recipient × Option GoError) (m : Str × Str × json.Value) :
    Recipient × Option GoError :=
  match json.findField Recipient.fields (json.unquote m.1) with
  | some .Address =>
    let p := json.storeString acc.1.Address m.2.2
    ({ acc.1 with Address := p.1 }, firstError acc.2 p.2)
  | some .Reason =>
    let p := json.storeString acc.1.Reason m.2.2
    ({ acc.1 with Reason := p.1 }, firstError acc.2 p.2)
  | none => acc

/-- Store a JSON value into a `Recipient`: an object fills the fields, `null`
changes nothing, anything else is a type error. -/
def Recipient.store (cur : Recipient) (v : json.Value) : Recipient × Option GoError :=
  match v with
  | .object ms => ms.foldl Recipient.storeMember (cur, none)
  | .null => (cur, none)
  | _ => (cur, some .jsonType)

/-- Store the elements of a JSON array into a `[]Recipient`: the element at
an index the slice already has is decoded over the old element, the others
over a zero `Recipient`. -/
def Recipient.storeElems : List Recipient → List json.Value → List Recipient × Option GoError
  | _, [] => ([], none)
  | cur, e :: es =>
    let r := Recipient.store (cur.head?.getD Recipient.empty) e
    let rs := Recipient.storeElems cur.tail es
    (r.1 :: rs.1, firstError r.2 rs.2)

/-- Store a JSON value into a `[]Recipient`: `null` gives the nil slice, an
array gives one element per value, anything else is a type error. -/
def Recipient.storeSlice (cur : List Recipient) (v : json.Value) :
    List Recipient × Option GoError :=
  match v with
  | .array es => Recipient.storeElems cur es
  | .null => ([], none)
  | _ => (cur, some .jsonType)

/-- The fields of `Message`. -/
inductive MessageField where
  | Queue
  | Id
  | Time
  | Size
  | Sender
  | Recipients
  deriving DecidableEq, Repr

/-- The JSON tags of `Message`. -/
def Message.fields : List (Str × MessageField) :=
  [("queue_name".toList, .Queue), ("queue_id".toList, .Id), ("arrival_time".toList, .Time),
   ("message_size".toList, .Size), ("sender".toList, .Sender),
   ("recipients".toList, .Recipients)]

/-- Store one object member into a `Message`. The `arrival_time` member hands
the source text of its value, whatever its JSON type, to
`UnixTime.UnmarshalJSON`, which may end the process. -/
def Message.storeMember (acc : Message × Option GoError) (m : Str × Str × json.Value) :
    Fallible (Message × Option GoError) :=
  match json.findField Message.fields (json.unquote m.1) with
  | some .Queue =>
    let p := json.storeString acc.1.Queue m.2.2
    .ok ({ acc.1 with Queue := p.1 }, firstError acc.2 p.2)
  | some .Id =>
    let p := json.storeString acc.1.Id m.2.2
    .ok ({ acc.1 with Id := p.1 }, firstError acc.2 p.2)
  | some .Time =>
    match acc.1.Time.UnmarshalJSON m.2.1 with
    | .ok ut => .ok ({ acc.1 with Time := ut }, acc.2)
    | .error e => .error e
  | some .Size =>
    let p := json.storeInt acc.1.Size m.2.2
    .ok ({ acc.1 with Size := p.1 }, firstError acc.2 p.2)
  | some .Sender =>
    let p := json.storeString acc.1.Sender m.2.2
    .ok ({ acc.1 with Sender := p.1 }, firstError acc.2 p.2)
  | some .Recipients =>
    let p := Recipient.storeSlice acc.1.Recipients m.2.2
    .ok ({ acc.1 with Recipients := p.1 }, firstError acc.2 p.2)
  | none => .ok acc

/-- Store the members of an object into a `Message`, in source order. -/
def Message.storeMembers :
    List (Str × Str × json.Value) → Message × Option GoError → Fallible (Message × Option GoError)
  | [], acc => .ok acc
  | m :: ms, acc =>
    match Message.storeMember acc m with
    | .ok acc1 => Message.storeMembers ms acc1
    | .error e => .error e

/-- Store a JSON value into a `Message`: an object fills the fields, `null`
changes nothing, anything else is a type error. -/
def Message.store (cur : Message) (v : json.Value) : Fallible (Message × Option GoError) :=
  match v with
  | .object ms => Message.storeMembers ms (cur, none)
  | .null => .ok (cur, none)
  | _ => .ok (cur, some .jsonType)

/-- `json.Unmarshal(data, &message)`: the message after the call and the
returned error. Invalid JSON is a syntax error and leaves the message as it
was; `error` is the process ended inside `UnixTime.UnmarshalJSON`. -/
def json.Unmarshal (data : Str) (message : Message) : Fallible (Message × Option GoError) :=
  match json.parse data with
  | none => .ok (message, some .jsonSyntax)
  | some v => Message.store message v

/-! ## The environment of the process -/

/-- What the program takes from outside: the executables found on the path,
the results of the external commands, and the two formatting collaborators.
`Listing n` is what the `n`-th run of `postqueue -j` wrote to its standard
output (or the error of `Run`); `CombinedOutput n path args` is the result of
the command dispatched in the `n`-th pass of the loop. -/
structure Env where
  LookPath : Str → Except GoError Str
  Listing : Nat → Except GoError Str
  CombinedOutput : Nat → Str → List Str → Except GoError Str
  TimeString : time.Time → Str
  WrapIndent : Str → Str

/-- One result of `ReadString('\n')` on standard input: the text read (the
line feed included when there is one) and whether `err != nil`. -/
structure ReadResult where
  text : Str
  err : Bool
  deriving DecidableEq, Repr

/-- What a run does that can be observed. -/
inductive Event where
  /-- Text written to standard output. -/
  | stdout (text : Str)
  /-- The message of `log.Fatal`, written to standard error. -/
  | fatal (e : GoError)
  /-- An external command that was run. -/
  | run (path : Str) (args : List Str)
  deriving DecidableEq, Repr

/-- How a run ends. -/
inductive End where
  /-- The call `os.Exit(code)`; `log.Fatal` exits with code 1. -/
  | exit (code : Nat)
  /-- A runtime panic (index out of range, nil dereference): the process
  crashes. -/
  | panic
  /-- Waiting for a line that the given standard input does not contain. -/
  | blocked
  /-- Still running when the given number of passes was over. -/
  | running
  deriving DecidableEq, Repr

/-! ## `fetchQueue` (lines 103 to 131) -/

/-- The loop of `fetchQueue` (lines 122 to 129) over the lines still to
decode, `messages` being the slice built so far. Each line is decoded into a
fresh `Message{}`; an error of `json.Unmarshal` goes to `log.Fatal`. -/
def fetchQueue.loop : List Str → Messages → Fallible Messages
  | [], messages => .ok messages
  | v :: vs, messages =>
    match json.Unmarshal v Message.empty with
    | .error e => .error e
    | .ok (_, some e) => .error e
    | .ok (message, none) => fetchQueue.loop vs (messages ++ [message])

/-- Lines 118 to 130 of `fetchQueue`: the decoding of the output of the
listing. -/
def fetchQueue.decode (raw : Str) : Fallible Messages :=
  fetchQueue.loop (strings.SplitLines (strings.TrimSpace raw)) []

/-- `func fetchQueue() Messages`, in pass `n` of the session loop: the events
and the messages, or the error given to `log.Fatal`. -/
def fetchQueue (env : Env) (n : Nat) : List Event × Fallible Messages :=
  match env.LookPath "postqueue".toList with
  | .error e => ([], .error e)
  | .ok postqueue =>
    match env.Listing n with
    | .error e => ([.run postqueue ["-j".toList]], .error e)
    | .ok raw => ([.run postqueue ["-j".toList]], fetchQueue.decode raw)

/-! ## `Messages.Menu` (lines 76 to 101) -/

/-- How a call of `Messages.Menu` ends. -/
inductive MenuEnd where
  /-- The call returned `(m, err)`. -/
  | returned (m : Message) (err : Option GoError)
  /-- Index out of range while rendering a row or indexing the list. -/
  | panic
  /-- Waiting for a line the given input does not contain. -/
  | blocked
  deriving DecidableEq, Repr

/-- A run of a menu: the events, the end, and the input left unread. -/
structure MenuRun where
  events : List Event
  result : MenuEnd
  rest : List ReadResult
  deriving DecidableEq, Repr

/-- The row of line 83 for the message at index `k`:
`"%4d  %s%s  %s  %s\n"` applied to `k+1`, the id, the glyph, the address of
the first recipient `r` and the time. -/
def Messages.row (env : Env) (k : Nat) (msg : Message) (r : Recipient) : Str :=
  fmt.padInt 4 ((k : Int) + 1) ++ "  ".toList ++ msg.Id ++ msg.QueueChar ++ "  ".toList ++
    r.Address ++ "  ".toList ++ env.TimeString msg.Time.Time ++ [Char.ofNat 10]

/-- The loop of lines 82 to 84 from index `k` on: the rows printed, and
whether the loop completed (`false`: `msg.Recipients[0]` was out of range, a
panic before that row is printed). -/
def Messages.rows (env : Env) : Nat → Messages → List Event × Bool
  | _, [] => ([], true)
  | k, msg :: rest =>
    match msg.Recipients with
    | [] => ([], false)
    | r :: _ =>
      let p := Messages.rows env (k + 1) rest
      (.stdout (Messages.row env k msg r) :: p.1, p.2)

/-- The prompt of line 86. -/
def Messages.prompt (m : Messages) : Str :=
  "Select a message by entering a number from 1 to ".toList ++
    strconv.FormatInt (m.length : Int) ++ ". Enter 0 to cancel.".toList ++ [Char.ofNat 10]

/-- The code from the label `Restart` to the `for` loop (lines 78 to 84),
followed by `loop`, the run of the `for` loop on the input `stdin`. -/
def Messages.Menu.enter (env : Env) (m : Messages) (stdin : List ReadResult)
    (loop : MenuRun) : MenuRun :=
  if m.length = 0 then ⟨[], .returned Message.empty (some .noMessages), stdin⟩
  else
    match Messages.rows env 0 m with
    | (rows, false) => ⟨rows, .panic, stdin⟩
    | (rows, true) => ⟨rows ++ loop.events, loop.result, loop.rest⟩

/-- The `for` loop of lines 85 to 100, started at its top: the prompt is
printed and one line is read. A failed read or a text that
`strconv.ParseUint` rejects jumps to `Restart`; a number above `len(m)`
falls through both branches and the loop goes round. -/
def Messages.Menu.loop (env : Env) (m : Messages) : List ReadResult → MenuRun
  | [] => ⟨[.stdout (Messages.prompt m)], .blocked, []⟩
  | r :: rest =>
    let again := Messages.Menu.loop env m rest
    let restart := Messages.Menu.enter env m rest again
    if r.err then ⟨.stdout (Messages.prompt m) :: restart.events, restart.result, restart.rest⟩
    else
      match strconv.ParseUint (strings.TrimSpace r.text) with
      | (_, some _) =>
        ⟨.stdout (Messages.prompt m) :: restart.events, restart.result, restart.rest⟩
      | (ianswer, none) =>
        if ianswer > 0 ∧ ianswer ≤ wrapUint64 m.length then
          match m[ianswer - 1]? with
          | some msg => ⟨[.stdout (Messages.prompt m)], .returned msg none, rest⟩
          | none => ⟨[.stdout (Messages.prompt m)], .panic, rest⟩
        else if ianswer = 0 then
          ⟨[.stdout (Messages.prompt m)], .returned Message.empty none, rest⟩
        else ⟨.stdout (Messages.prompt m) :: again.events, again.result, again.rest⟩

/-- `func (m Messages) Menu() (Message, error)`. -/
def Messages.Menu (env : Env) (m : Messages) (stdin : List ReadResult) : MenuRun :=
  Messages.Menu.enter env m stdin (Messages.Menu.loop env m stdin)

/-! ## `menu` and `verbs` (lines 133 to 148) -/

/-- The rows of lines 136 to 138, `"%3d\t%s\n"`, from index `k` on. -/
def menu.rows : Nat → List Str → List Event
  | _, [] => []
  | k, v :: vs =>
    .stdout (fmt.padInt 3 ((k : Int) + 1) ++ [Char.ofNat 9] ++ v ++ [Char.ofNat 10]) ::
      menu.rows (k + 1) vs

/-- The value `menu` returns for the text `answer` read from the operator
(lines 141 to 145): the index and the word. The comparison with `len(items)`
and the returned index are computed after conversion to `int`. -/
def menu.choose (items : List Str) (answer : Str) : Int × Str :=
  match strconv.ParseUint (strings.TrimSpace answer) with
  | (_, some _) => (-1, answer)
  | (ianswer, none) =>
    if ianswer = 0 ∨ wrapInt64 (ianswer : Int) > (items.length : Int) then (-1, answer)
    else (wrapInt64 ((wrapUint64 (ianswer + 2 ^ 64 - 1) : Nat) : Int), answer)

/-- `func menu(prompt string, items []string) (index int, word string)`: the
events, the returned pair (`none` when no line is there to read) and the
input left. The error of `ReadString` is ignored. -/
def menu (prompt : Str) (items : List Str) (stdin : List ReadResult) :
    List Event × Option (Int × Str) × List ReadResult :=
  let shown := menu.rows 0 items ++ [.stdout (prompt ++ " ".toList)]
  match stdin with
  | [] => (shown, none, [])
  | r :: rest => (shown, some (menu.choose items r.text), rest)

/-- `var verbs`. -/
def verbs : List Str :=
  ["Read".toList, "Hold".toList, "Unhold".toList, "Requeue".toList, "Delete".toList,
   "Quit".toList]

/-! ## `main` (lines 150 to 204) -/

/-- What follows a pass of the session loop: the next pass (a new
`fetchQueue`), or the end of the process. -/
inductive Next where
  | refetch
  | stop (e : End)
  deriving DecidableEq, Repr

/-- The outcome of a part of a pass: the events, what follows, and the input
left. -/
structure PassRun where
  events : List Event
  next : Next
  rest : List ReadResult
  deriving DecidableEq, Repr

/-- The `switch` of lines 184 to 197: the command built for the verb, `none`
for `Quit` being the call `os.Exit(0)`. The outer `none` is a verb without a
case, for which `cmd` stays `nil`. -/
def main.command (postsuper postcat : Str) (verb : Str) (id : Str) :
    Option (Option (Str × List Str)) :=
  if verb = "Read".toList then some (some (postcat, ["-q".toList, id]))
  else if verb = "Hold".toList then some (some (postsuper, ["-h".toList, id]))
  else if verb = "Unhold".toList then some (some (postsuper, ["-H".toList, id]))
  else if verb = "Requeue".toList then some (some (postsuper, ["-r".toList, id]))
  else if verb = "Delete".toList then some (some (postsuper, ["-d".toList, id]))
  else if verb = "Quit".toList then some none
  else none

/-- Lines 183 to 202 for the index `i ≥ 0` that `menu` returned: the verb is
looked up (out of range: panic), the command is built and run, and its
combined output is printed. -/
def main.dispatch (env : Env) (postsuper postcat : Str) (n : Nat) (m : Message) (i : Int)
    (stdin : List ReadResult) : PassRun :=
  match verbs[i.toNat]? with
  | none => ⟨[], .stop .panic, stdin⟩
  | some verb =>
    match main.command postsuper postcat verb m.Id with
    | none => ⟨[], .stop .panic, stdin⟩
    | some none => ⟨[], .stop (.exit 0), stdin⟩
    | some (some (path, args)) =>
      match env.CombinedOutput n path args with
      | .error e => ⟨[.run path args, .fatal e], .stop (.exit 1), stdin⟩
      | .ok output => ⟨[.run path args, .stdout (output ++ [Char.ofNat 10])], .refetch, stdin⟩

/-- Lines 178 to 202: the action menu for the chosen message `m`, then the
dispatch. A negative index prints two line feeds and continues the loop. -/
def main.act (env : Env) (postsuper postcat : Str) (n : Nat) (m : Message)
    (stdin : List ReadResult) : PassRun :=
  match menu "Select action: ".toList verbs stdin with
  | (shown, none, rest) => ⟨shown, .stop .blocked, rest⟩
  | (shown, some (i, _), rest) =>
    if i < 0 then ⟨shown ++ [.stdout [Char.ofNat 10, Char.ofNat 10]], .refetch, rest⟩
    else
      let d := main.dispatch env postsuper postcat n m i rest
      ⟨shown ++ d.events, d.next, d.rest⟩

/-- The loop of lines 172 to 176: address and formatted reason of each
recipient. -/
def main.reasons (env : Env) : List Recipient → List Event
  | [] => []
  | r :: rs =>
    .stdout (r.Address ++ [Char.ofNat 58, Char.ofNat 10]) ::
      .stdout (env.WrapIndent r.Reason ++ [Char.ofNat 10, Char.ofNat 10]) ::
      main.reasons env rs

/-- Lines 163 to 202: the pass of the loop on the messages `msgs` that
`fetchQueue` returned. -/
def main.select (env : Env) (postsuper postcat : Str) (n : Nat) (msgs : Messages)
    (stdin : List ReadResult) : PassRun :=
  let sel := Messages.Menu env msgs stdin
  match sel.result with
  | .blocked => ⟨sel.events, .stop .blocked, sel.rest⟩
  | .panic => ⟨sel.events, .stop .panic, sel.rest⟩
  | .returned _ (some err) => ⟨sel.events ++ [.fatal err], .stop (.exit 1), sel.rest⟩
  | .returned m none =>
    if m.Id = [] then ⟨sel.events, .stop (.exit 0), sel.rest⟩
    else
      let a := main.act env postsuper postcat n m sel.rest
      ⟨sel.events ++ main.reasons env m.Recipients ++ a.events, a.next, a.rest⟩

/-- One pass of the `for` loop of `main` (lines 161 to 202), the `n`-th. -/
def main.pass (env : Env) (postsuper postcat : Str) (n : Nat) (stdin : List ReadResult) :
    PassRun :=
  match fetchQueue env n with
  | (ev, .error e) => ⟨ev ++ [.fatal e], .stop (.exit 1), stdin⟩
  | (ev, .ok msgs) =>
    let s := main.select env postsuper postcat n msgs stdin
    ⟨ev ++ s.events, s.next, s.rest⟩

/-- The `for` loop of `main`, from pass `n`, for at most `fuel` passes. -/
def main.loop (env : Env) (postsuper postcat : Str) :
    Nat → Nat → List ReadResult → List Event × End
  | 0, _, _ => ([], .running)
  | fuel + 1, n, stdin =>
    let p := main.pass env postsuper postcat n stdin
    match p.next with
    | .stop e => (p.events, e)
    | .refetch =>
      let r := main.loop env postsuper postcat fuel (n + 1) p.rest
      (p.events ++ r.1, r.2)

/-- `func main()`, observed for at most `fuel` passes of its loop. -/
def main (env : Env) (fuel : Nat) (stdin : List ReadResult) : List Event × End :=
  match env.LookPath "postsuper".toList with
  | .error e => ([.fatal e], .exit 1)
  | .ok postsuper =>
    match env.LookPath "postcat".toList with
    | .error e => ([.fatal e], .exit 1)
    | .ok postcat => main.loop env postsuper postcat fuel 0 stdin

/-! ## Notions used to state the properties -/

namespace strconv

/-- The number a string of decimal digits denotes, continuing from the value
`n` of the digits already read. -/
def decimalFold (n : Nat) (s : Str) : Nat := s.foldl (fun a c => 10 * a + (c.toNat - 48)) n

end strconv

namespace Spec

/-- A decimal numeral, in the words of the claims: one or more decimal digits
and nothing else. -/
def isNumeral (s : Str) : Bool :=
  !s.isEmpty && s.all (fun c => decide (48 ≤ c.toNat ∧ c.toNat ≤ 57))

/-- The number a decimal numeral denotes. -/
def numeralValue (s : Str) : Nat := strconv.decimalFold 0 s

/-- A valid base-10 signed 64-bit integer, in the words of the claims: an
optional sign, then a decimal numeral whose value, with the sign, lies in
`[-2^63, 2^63)`. -/
def validInt64 (s : Str) : Bool :=
  match s with
  | [] => false
  | c :: cs =>
    if c.toNat = 45 then isNumeral cs && decide (numeralValue cs ≤ 2 ^ 63)
    else if c.toNat = 43 then isNumeral cs && decide (numeralValue cs < 2 ^ 63)
    else isNumeral s && decide (numeralValue s < 2 ^ 63)

end Spec

/-- An event that is the run of an external command. -/
def Event.isRun : Event → Bool
  | .run _ _ => true
  | _ => false

/-- An event that is text on standard output. -/
def Event.isStdout : Event → Bool
  | .stdout _ => true
  | _ => false

/-- An environment to instantiate the statements with: every executable is
found under `/usr/sbin/`, the listing is `listing` in every pass, every
command succeeds with the output `ok`. -/
def Env.sample (listing : Str) : Env where
  LookPath := fun f => .ok ("/usr/sbin/".toList ++ f)
  Listing := fun _ => .ok listing
  CombinedOutput := fun _ _ _ => .ok "ok".toList
  TimeString := fun t => strconv.FormatInt t.Unix
  WrapIndent := fun s => s

/-- A line read from the operator: the text followed by a line feed, no
error. -/
def ReadResult.line (text : String) : ReadResult := ⟨text.toList ++ [Char.ofNat 10], false⟩

/-- The text `s` between double quotes. -/
def quoted (s : Str) : Str := Char.ofNat 34 :: (s ++ [Char.ofNat 34])

deriving instance DecidableEq for Except

/-- A message to instantiate the statements with. -/
def Message.sample : Message :=
  ⟨"hold".toList, "ABC123".toList, ⟨time.Time.zero⟩, 12, "s@x.com".toList,
    [⟨"a@x.com".toList, "mailbox full".toList⟩]⟩

/-- A well-formed record of the listing; it decodes to `Message.sample`. -/
def Sample.record : Str :=
  ("\x7b\"queue_name\":\"hold\",\"queue_id\":\"ABC123\",\"arrival_time\":\"null\"," ++
    "\"message_size\":12,\"sender\":\"s@x.com\"," ++
    "\"recipients\":[\x7b\"address\":\"a@x.com\",\"delay_reason\":\"mailbox full\"\x7d]\x7d").toList

/-- A record whose timestamp is neither `null` nor an integer. -/
def Sample.badTime : Str := "\x7b\"queue_id\":\"B\",\"arrival_time\":\"abc\"\x7d".toList

/-- A record that is cut short. -/
def Sample.truncated : Str := "\x7b\"queue_id\":".toList

/-- The line `l` decodes: `json.Unmarshal` into a fresh `Message{}` returns a
nil error (and the process is not ended on the way). -/
def fetchQueue.decodes (l : Str) : Bool :=
  match json.Unmarshal l Message.empty with
  | .ok (_, none) => true
  | _ => false

/-- A second well-formed record, with a numeric timestamp. -/
def Sample.second : Str :=
  ("\x7b\"queue_id\":\"DEF456\",\"arrival_time\":\"1500000000\"," ++
    "\"recipients\":[\x7b\"address\":\"b@y.org\"\x7d]\x7d").toList

/-- A listing of two records, with white space around. -/
def Sample.listing : Str :=
  [Char.ofNat 32] ++ Sample.record ++ [Char.ofNat 10] ++ Sample.second ++ [Char.ofNat 10]

/-- A record with every key of the listing and an empty list of recipients. -/
def Sample.noRecipients : Str :=
  ("\x7b\"queue_name\":\"hold\",\"queue_id\":\"ABC123\",\"arrival_time\":\"null\"," ++
    "\"message_size\":12,\"sender\":\"s@x.com\",\"recipients\":[]\x7d").toList

/-- A record with every key of the listing and an empty queue id. -/
def Sample.noId : Str :=
  ("\x7b\"queue_name\":\"hold\",\"queue_id\":\"\",\"arrival_time\":\"null\"," ++
    "\"message_size\":12,\"sender\":\"s@x.com\"," ++
    "\"recipients\":[\x7b\"address\":\"a@x.com\",\"delay_reason\":\"mailbox full\"\x7d]\x7d").toList

/-! # Properties -/

/-! ## `strconv`: parsing and formatting -/

namespace strconv

theorem decimalFold_ge (s : Str) (n : Nat) : n ≤ decimalFold n s := by
  induction s generalizing n with
  | nil => simp [decimalFold]
  | cons c cs ih =>
    have := ih (10 * n + (c.toNat - 48))
    simp only [decimalFold, List.foldl_cons] at this ⊢
    omega

theorem parseUintLoop_digits (s : Str) (n : Nat)
    (hs : ∀ c ∈ s, 48 ≤ c.toNat ∧ c.toNat ≤ 57) (hv : decimalFold n s < 2 ^ 64) :
    parseUintLoop s n = (decimalFold n s, none) := by
  induction s generalizing n with
  | nil => simp [parseUintLoop, decimalFold]
  | cons c cs ih =>
    have hc := hs c (List.mem_cons_self _ _)
    have hstep : decimalFold n (c :: cs) = decimalFold (10 * n + (c.toNat - 48)) cs := by
      simp [decimalFold]
    have hge := decimalFold_ge cs (10 * n + (c.toNat - 48))
    rw [hstep] at hv ⊢
    have hlt : 10 * n + (c.toNat - 48) < 2 ^ 64 := lt_of_le_of_lt hge hv
    have hmod : wrapUint64 (n * 10 + (c.toNat - 48)) = 10 * n + (c.toNat - 48) := by
      unfold wrapUint64
      rw [Nat.mod_eq_of_lt (by omega)]
      omega
    have hcut : ¬ n ≥ cutoff := by
      simp only [cutoff, maxUint64]
      norm_num
      omega
    rw [parseUintLoop]
    simp only [hc, and_self, if_true, hcut, if_false, hmod]
    have h2 : ¬ (10 * n + (c.toNat - 48) < n * 10 ∨ 10 * n + (c.toNat - 48) > maxUint64) := by
      simp only [maxUint64]
      omega
    simp only [h2, if_false]
    exact ih _ (fun c hc => hs c (List.mem_cons_of_mem _ hc)) hv

theorem parseUintLoop_ok (s : Str) (n v : Nat) (hn : n < 2 ^ 64)
    (h : parseUintLoop s n = (v, none)) :
    (∀ c ∈ s, 48 ≤ c.toNat ∧ c.toNat ≤ 57) ∧ v = decimalFold n s ∧ v < 2 ^ 64 := by
  induction s generalizing n with
  | nil =>
    simp only [parseUintLoop, Prod.mk.injEq, and_true] at h
    subst h
    exact ⟨by simp, by simp [decimalFold], hn⟩
  | cons c cs ih =>
    rw [parseUintLoop] at h
    by_cases hc : 48 ≤ c.toNat ∧ c.toNat ≤ 57
    · simp only [hc, and_self, if_true] at h
      by_cases hcut : n ≥ cutoff
      · simp [hcut] at h
      · simp only [hcut, if_false] at h
        by_cases h2 : wrapUint64 (n * 10 + (c.toNat - 48)) < n * 10 ∨
            wrapUint64 (n * 10 + (c.toNat - 48)) > maxUint64
        · simp [h2] at h
        · simp only [h2, if_false] at h
          have hw : wrapUint64 (n * 10 + (c.toNat - 48)) < 2 ^ 64 := by
            unfold wrapUint64; exact Nat.mod_lt _ (by norm_num)
          have hmod : wrapUint64 (n * 10 + (c.toNat - 48)) = 10 * n + (c.toNat - 48) := by
            unfold wrapUint64 at h2 ⊢
            simp only [cutoff, maxUint64] at hcut h2
            omega
          obtain ⟨h3, h4, h5⟩ := ih _ hw h
          refine ⟨?_, ?_, h5⟩
          · intro x hx
            rcases List.mem_cons.mp hx with rfl | hx
            · exact hc
            · exact h3 x hx
          · rw [h4, hmod]; simp [decimalFold]
    · simp [hc] at h

theorem digitChar_toNat (d : Nat) (hd : d < 10) : (digitChar d).toNat = 48 + d := by
  interval_cases d <;> rfl

theorem formatDigits_digits (fuel n : Nat) :
    ∀ c ∈ formatDigits fuel n, 48 ≤ c.toNat ∧ c.toNat ≤ 57 := by
  induction fuel generalizing n with
  | zero => simp [formatDigits]
  | succ f ih =>
    intro c hc
    rw [formatDigits] at hc
    split at hc
    · rename_i h
      simp only [List.mem_singleton] at hc
      subst hc
      rw [digitChar_toNat n h]; omega
    · rcases List.mem_append.mp hc with hc | hc
      · exact ih _ c hc
      · simp only [List.mem_singleton] at hc
        subst hc
        rw [digitChar_toNat _ (Nat.mod_lt _ (by norm_num))]
        have := Nat.mod_lt n (show 10 > 0 by norm_num)
        omega

theorem decimalFold_append (n : Nat) (s t : Str) :
    decimalFold n (s ++ t) = decimalFold (decimalFold n s) t := by
  simp [decimalFold, List.foldl_append]

theorem decimalFold_formatDigits (fuel n : Nat) (h : n < 10 ^ fuel) :
    decimalFold 0 (formatDigits fuel n) = n := by
  induction fuel generalizing n with
  | zero => simp at h; subst h; simp [formatDigits, decimalFold]
  | succ f ih =>
    rw [formatDigits]
    split
    · rename_i h10
      simp [decimalFold, digitChar_toNat n h10]
    · have hq : n / 10 < 10 ^ f := by
        rw [pow_succ] at h
        exact Nat.div_lt_of_lt_mul (by omega)
      rw [decimalFold_append, ih _ hq]
      simp only [decimalFold, List.foldl_cons, List.foldl_nil]
      rw [digitChar_toNat _ (Nat.mod_lt _ (by norm_num))]
      omega

theorem formatDigits_ne_nil (fuel n : Nat) : formatDigits (fuel + 1) n ≠ [] := by
  rw [formatDigits]
  split <;> simp

theorem FormatUint_digits (n : Nat) : ∀ c ∈ FormatUint n, 48 ≤ c.toNat ∧ c.toNat ≤ 57 :=
  formatDigits_digits _ _

theorem FormatUint_ne_nil (n : Nat) : FormatUint n ≠ [] := formatDigits_ne_nil _ _

theorem decimalFold_FormatUint (n : Nat) : decimalFold 0 (FormatUint n) = n :=
  decimalFold_formatDigits _ _ (by
    have : n < 2 ^ (n + 1) := by
      calc n < n + 1 := Nat.lt_succ_self n
        _ < 2 ^ (n + 1) := Nat.lt_two_pow _
    exact lt_of_lt_of_le this (Nat.pow_le_pow_left (by norm_num) _))


theorem isNumeral_iff (s : Str) :
    Spec.isNumeral s = true ↔ s ≠ [] ∧ ∀ c ∈ s, 48 ≤ c.toNat ∧ c.toNat ≤ 57 := by
  cases s <;> simp [Spec.isNumeral]

theorem ParseUint_numeral (s : Str) (hs : Spec.isNumeral s = true) (hv : decimalFold 0 s < 2 ^ 64) :
    ParseUint s = (decimalFold 0 s, none) := by
  obtain ⟨hne, hd⟩ := (isNumeral_iff s).mp hs
  cases s with
  | nil => exact absurd rfl hne
  | cons c cs => exact parseUintLoop_digits _ _ hd hv

theorem ParseUint_ok (s : Str) (v : Nat) (h : ParseUint s = (v, none)) :
    Spec.isNumeral s = true ∧ v = decimalFold 0 s ∧ v < 2 ^ 64 := by
  cases s with
  | nil => simp [ParseUint] at h
  | cons c cs =>
    obtain ⟨h1, h2, h3⟩ := parseUintLoop_ok (c :: cs) 0 v (by norm_num) h
    exact ⟨(isNumeral_iff _).mpr ⟨by simp, h1⟩, h2, h3⟩

theorem ParseUint_not_numeral (s : Str) (hs : Spec.isNumeral s = false) :
    ∃ v e, ParseUint s = (v, some e) := by
  rcases hp : ParseUint s with ⟨v, _ | e⟩
  · have := (ParseUint_ok s v hp).1
    rw [hs] at this
    exact absurd this (by simp)
  · exact ⟨v, e, rfl⟩

theorem ParseUint_FormatUint (k : Nat) (hk : k < 2 ^ 64) :
    ParseUint (FormatUint k) = (k, none) := by
  have h := ParseUint_numeral (FormatUint k)
    ((isNumeral_iff _).mpr ⟨FormatUint_ne_nil k, FormatUint_digits k⟩)
    (by rw [decimalFold_FormatUint]; exact hk)
  rw [decimalFold_FormatUint] at h
  exact h

end strconv

/-! ## The menus -/

theorem rows_ok (env : Env) (m : Messages) (k : Nat) (h : ∀ msg ∈ m, msg.Recipients ≠ []) :
    (Messages.rows env k m).2 = true := by
  induction m generalizing k with
  | nil => simp [Messages.rows]
  | cons msg rest ih =>
    have h1 := h msg (List.mem_cons_self _ _)
    rw [Messages.rows]
    cases hr : msg.Recipients with
    | nil => exact absurd hr h1
    | cons r rs =>
      simp only
      exact ih _ (fun x hx => h x (List.mem_cons_of_mem _ hx))

theorem Menu_enter_ok (env : Env) (m : Messages) (stdin : List ReadResult) (loop : MenuRun)
    (hN : 1 ≤ m.length) (h : ∀ msg ∈ m, msg.Recipients ≠ []) :
    Messages.Menu.enter env m stdin loop =
      ⟨(Messages.rows env 0 m).1 ++ loop.events, loop.result, loop.rest⟩ := by
  have hr := rows_ok env m 0 h
  unfold Messages.Menu.enter
  have h0 : ¬ m.length = 0 := by omega
  simp only [h0, if_false]
  rcases hp : Messages.rows env 0 m with ⟨rows, b⟩
  rw [hp] at hr
  simp only at hr
  subst hr
  rfl

theorem Menu_loop_head (env : Env) (m : Messages) (stdin : List ReadResult) :
    ∃ evs, (Messages.Menu.loop env m stdin).events = .stdout (Messages.prompt m) :: evs := by
  cases stdin with
  | nil => exact ⟨[], rfl⟩
  | cons r rest =>
    rw [Messages.Menu.loop]
    split
    · exact ⟨_, rfl⟩
    · split
      · exact ⟨_, rfl⟩
      · split
        · split <;> exact ⟨_, rfl⟩
        · split <;> exact ⟨_, rfl⟩

/-! ## C1: action selection -/

theorem menu_choose_cases (answer : Str) :
    (∃ v, strconv.ParseUint (strings.TrimSpace answer) = (v, none) ∧ 1 ≤ v ∧ v ≤ 6 ∧
        (menu.choose verbs answer).1 = (v : Int) - 1) ∨
    (strconv.ParseUint (strings.TrimSpace answer) = (2 ^ 63, none) ∧
        (menu.choose verbs answer).1 = 2 ^ 63 - 1) ∨
    (menu.choose verbs answer).1 < 0 := by
  unfold menu.choose
  rcases hp : strconv.ParseUint (strings.TrimSpace answer) with ⟨v, _ | e⟩
  · have hv := (strconv.ParseUint_ok _ v hp).2.2
    have hlen : ((verbs.length : Nat) : Int) = 6 := by decide
    simp only [hlen]
    by_cases h0 : v = 0 ∨ wrapInt64 (v : Int) > 6
    · simp [h0]
    · simp only [h0, if_false]
      unfold wrapInt64 wrapUint64 at *
      by_cases h63 : v = 2 ^ 63
      · right; left
        subst h63
        refine ⟨rfl, ?_⟩
        norm_num
      · by_cases hlt : v < 2 ^ 63
        · left
          refine ⟨v, rfl, ?_⟩
          push_neg at h0
          omega
        · right; right
          push_neg at h0
          omega
  · right; right
    simp

theorem main_act_negative (env : Env) (postsuper postcat : Str) (n : Nat) (m : Message)
    (r : ReadResult) (rest : List ReadResult) (h : (menu.choose verbs r.text).1 < 0) :
    main.act env postsuper postcat n m (r :: rest) =
      ⟨menu.rows 0 verbs ++ [.stdout ("Select action: ".toList ++ " ".toList)] ++
        [.stdout [Char.ofNat 10, Char.ofNat 10]], .refetch, rest⟩ := by
  unfold main.act menu
  simp only [h, if_true]

/-- C1 (code defect). At action selection `menu` converts the parsed `uint64`
to `int` before comparing it with the number of actions. For the input
`9223372036854775808` (that is `2^63`) the conversion wraps to a negative
number, the range check passes, and `menu` returns the index `2^63 - 1`,
which is not negative: the session loop indexes `verbs` out of range and the
process panics. For every other input line that is not a numeral of value 1
to 6 the returned index is negative and the pass prints the action menu, two
line feeds, and continues with a new `fetchQueue`, reading no more input and
running no command. -/
theorem C1_action_index_wraps_at_2_pow_63 (env : Env) (postsuper postcat : Str) (n : Nat)
    (m : Message) (r : ReadResult) (rest : List ReadResult)
    (hbad : ¬ (Spec.isNumeral (strings.TrimSpace r.text) = true ∧
      1 ≤ Spec.numeralValue (strings.TrimSpace r.text) ∧
      Spec.numeralValue (strings.TrimSpace r.text) ≤ 6))
    (hne : ¬ (Spec.isNumeral (strings.TrimSpace r.text) = true ∧
      Spec.numeralValue (strings.TrimSpace r.text) = 2 ^ 63)) :
    (menu.choose verbs (ReadResult.line "9223372036854775808").text).1 = 9223372036854775807 ∧
    main.act env postsuper postcat n m (ReadResult.line "9223372036854775808" :: rest) =
      ⟨menu.rows 0 verbs ++ [.stdout ("Select action: ".toList ++ " ".toList)],
        .stop .panic, rest⟩ ∧
    (menu.choose verbs r.text).1 < 0 ∧
    main.act env postsuper postcat n m (r :: rest) =
      ⟨menu.rows 0 verbs ++ [.stdout ("Select action: ".toList ++ " ".toList)] ++
        [.stdout [Char.ofNat 10, Char.ofNat 10]], .refetch, rest⟩ := by
  have hc : menu.choose verbs (ReadResult.line "9223372036854775808").text =
      (9223372036854775807, (ReadResult.line "9223372036854775808").text) := by decide
  have hneg : (menu.choose verbs r.text).1 < 0 := by
    rcases menu_choose_cases r.text with ⟨v, hp, h1, h6, _⟩ | ⟨hp, _⟩ | h
    · obtain ⟨hn, hv, _⟩ := strconv.ParseUint_ok _ v hp
      exact absurd ⟨hn, by rw [Spec.numeralValue, ← hv]; exact h1,
        by rw [Spec.numeralValue, ← hv]; exact h6⟩ hbad
    · obtain ⟨hn, hv, _⟩ := strconv.ParseUint_ok _ _ hp
      exact absurd ⟨hn, by rw [Spec.numeralValue, ← hv]⟩ hne
    · exact h
  refine ⟨by rw [hc], ?_, hneg, main_act_negative env postsuper postcat n m r rest hneg⟩
  unfold main.act menu
  simp only [hc]
  have hd : main.dispatch env postsuper postcat n m 9223372036854775807 rest =
      ⟨[], .stop .panic, rest⟩ := by
    unfold main.dispatch
    have : verbs[(9223372036854775807 : Int).toNat]? = none := by decide
    rw [this]
  rw [hd]
  simp

/-- The statement of C1 at the line `18446744073709551615` (`2^64 - 1`). -/
theorem C1_action_index_wraps_at_2_pow_63_witness :
    (menu.choose verbs (ReadResult.line "9223372036854775808").text).1 = 9223372036854775807 ∧
    main.act (Env.sample []) "ps".toList "pc".toList 0 Message.empty
        [ReadResult.line "9223372036854775808"] =
      ⟨menu.rows 0 verbs ++ [.stdout ("Select action: ".toList ++ " ".toList)],
        .stop .panic, []⟩ ∧
    (menu.choose verbs (ReadResult.line "18446744073709551615").text).1 < 0 ∧
    main.act (Env.sample []) "ps".toList "pc".toList 0 Message.empty
        [ReadResult.line "18446744073709551615"] =
      ⟨menu.rows 0 verbs ++ [.stdout ("Select action: ".toList ++ " ".toList)] ++
        [.stdout [Char.ofNat 10, Char.ofNat 10]], .refetch, []⟩ :=
  C1_action_index_wraps_at_2_pow_63 (Env.sample []) "ps".toList "pc".toList 0 Message.empty
    (ReadResult.line "18446744073709551615") [] (by decide) (by decide)

/-! ## C2: message selection -/

theorem Menu_loop_restart (env : Env) (m : Messages) (r : ReadResult) (rest : List ReadResult)
    (h : r.err = true ∨ Spec.isNumeral (strings.TrimSpace r.text) = false) :
    Messages.Menu.loop env m (r :: rest) =
      ⟨.stdout (Messages.prompt m) :: (Messages.Menu env m rest).events,
        (Messages.Menu env m rest).result, (Messages.Menu env m rest).rest⟩ := by
  rw [Messages.Menu.loop]
  by_cases he : r.err = true
  · simp only [he, if_true]
    rfl
  · simp only [he]
    rcases h with h | h
    · exact absurd h he
    · obtain ⟨v, e, hp⟩ := strconv.ParseUint_not_numeral _ h
      rw [hp]
      rfl

theorem Menu_unfold (env : Env) (m : Messages) (stdin : List ReadResult)
    (hN : 1 ≤ m.length) (hrec : ∀ msg ∈ m, msg.Recipients ≠ []) :
    Messages.Menu env m stdin =
      ⟨(Messages.rows env 0 m).1 ++ (Messages.Menu.loop env m stdin).events,
        (Messages.Menu.loop env m stdin).result, (Messages.Menu.loop env m stdin).rest⟩ :=
  Menu_enter_ok env m stdin _ hN hrec

theorem Menu_loop_number (env : Env) (m : Messages) (r : ReadResult) (rest : List ReadResult)
    (v : Nat) (hr : r.err = false)
    (hp : strconv.ParseUint (strings.TrimSpace r.text) = (v, none)) (hlen : m.length < 2 ^ 64) :
    Messages.Menu.loop env m (r :: rest) =
      if 0 < v ∧ v ≤ m.length then
        match m[v - 1]? with
        | some msg => ⟨[.stdout (Messages.prompt m)], .returned msg none, rest⟩
        | none => ⟨[.stdout (Messages.prompt m)], .panic, rest⟩
      else if v = 0 then ⟨[.stdout (Messages.prompt m)], .returned Message.empty none, rest⟩
      else ⟨.stdout (Messages.prompt m) :: (Messages.Menu.loop env m rest).events,
        (Messages.Menu.loop env m rest).result, (Messages.Menu.loop env m rest).rest⟩ := by
  rw [Messages.Menu.loop]
  simp only [hr, hp, wrapUint64, Nat.mod_eq_of_lt hlen]
  rfl

/-- C2. `Messages.Menu` on a list `m` of `N ≥ 1` messages, each with a
recipient, and a line read without error. If the trimmed line is the decimal
numeral of `k` with `1 ≤ k ≤ N`, the call returns `m[k-1]` with a nil error;
if it is `0`, the call returns the empty `Message` with a nil error. If it is
the numeral of `N+1`, nothing is returned for this line: the loop goes round
and its next step prints the prompt again. If it is `-1` or not a numeral,
nothing is returned either: the menu restarts from its label, rows and prompt
are printed again, and the outcome is that of the menu on the rest of the
input. -/
theorem C2_message_menu_bounds (env : Env) (m : Messages) (r : ReadResult)
    (rest : List ReadResult) (hN : 1 ≤ m.length) (hlen : m.length < 2 ^ 63)
    (hrec : ∀ msg ∈ m, msg.Recipients ≠ []) (hr : r.err = false) :
    (∀ k, 1 ≤ k → k ≤ m.length → strings.TrimSpace r.text = strconv.FormatUint k →
      ∃ msg, m[k - 1]? = some msg ∧
        Messages.Menu env m (r :: rest) =
          ⟨(Messages.rows env 0 m).1 ++ [.stdout (Messages.prompt m)],
            .returned msg none, rest⟩) ∧
    (strings.TrimSpace r.text = "0".toList →
      Messages.Menu env m (r :: rest) =
        ⟨(Messages.rows env 0 m).1 ++ [.stdout (Messages.prompt m)],
          .returned Message.empty none, rest⟩) ∧
    (strings.TrimSpace r.text = strconv.FormatUint (m.length + 1) →
      Messages.Menu env m (r :: rest) =
        ⟨(Messages.rows env 0 m).1 ++
            .stdout (Messages.prompt m) :: (Messages.Menu.loop env m rest).events,
          (Messages.Menu.loop env m rest).result, (Messages.Menu.loop env m rest).rest⟩ ∧
      ∃ evs, (Messages.Menu.loop env m rest).events = .stdout (Messages.prompt m) :: evs) ∧
    (strings.TrimSpace r.text = "-1".toList ∨
        Spec.isNumeral (strings.TrimSpace r.text) = false →
      Messages.Menu env m (r :: rest) =
        ⟨(Messages.rows env 0 m).1 ++
            .stdout (Messages.prompt m) :: (Messages.Menu env m rest).events,
          (Messages.Menu env m rest).result, (Messages.Menu env m rest).rest⟩ ∧
      ∃ evs, (Messages.Menu env m rest).events =
        (Messages.rows env 0 m).1 ++ .stdout (Messages.prompt m) :: evs) := by
  have hlen64 : m.length < 2 ^ 64 := lt_trans hlen (by norm_num)
  refine ⟨?_, ?_, ?_, ?_⟩
  · intro k h1 hk ht
    have hp : strconv.ParseUint (strings.TrimSpace r.text) = (k, none) := by
      rw [ht]; exact strconv.ParseUint_FormatUint k (lt_of_le_of_lt hk hlen64)
    have hlt : k - 1 < m.length := by omega
    have hget : m[k - 1]? = some m[k - 1] := List.getElem?_eq_getElem hlt
    refine ⟨_, hget, ?_⟩
    rw [Menu_unfold env m _ hN hrec, Menu_loop_number env m r rest k hr hp hlen64]
    rw [if_pos (show 0 < k ∧ k ≤ m.length from ⟨h1, hk⟩), hget]
  · intro ht
    have hp : strconv.ParseUint (strings.TrimSpace r.text) = (0, none) := by
      rw [ht]; decide
    rw [Menu_unfold env m _ hN hrec, Menu_loop_number env m r rest 0 hr hp hlen64]
    simp
  · intro ht
    have hp : strconv.ParseUint (strings.TrimSpace r.text) = (m.length + 1, none) := by
      rw [ht]; exact strconv.ParseUint_FormatUint _ (by omega)
    refine ⟨?_, Menu_loop_head env m rest⟩
    rw [Menu_unfold env m _ hN hrec, Menu_loop_number env m r rest _ hr hp hlen64]
    simp
  · intro ht
    have hnn : Spec.isNumeral (strings.TrimSpace r.text) = false := by
      rcases ht with ht | ht
      · rw [ht]; decide
      · exact ht
    refine ⟨?_, ?_⟩
    · rw [Menu_unfold env m _ hN hrec, Menu_loop_restart env m r rest (Or.inr hnn)]
    · obtain ⟨evs, he⟩ := Menu_loop_head env m rest
      exact ⟨evs, by rw [Menu_unfold env m _ hN hrec, he]⟩

/-- The statement of C2 on a list of two messages: the line ` 2` selects the
second, the line `3` selects nothing. -/
theorem C2_message_menu_bounds_witness :
    Messages.Menu (Env.sample []) [Message.sample, Message.sample] [ReadResult.line " 2"] =
      ⟨(Messages.rows (Env.sample []) 0 [Message.sample, Message.sample]).1 ++
          [.stdout (Messages.prompt [Message.sample, Message.sample])],
        .returned Message.sample none, []⟩ ∧
    (Messages.Menu (Env.sample []) [Message.sample, Message.sample]
      [ReadResult.line "3"]).result = .blocked := by
  have h := C2_message_menu_bounds (Env.sample []) [Message.sample, Message.sample]
    (ReadResult.line " 2") [] (by decide) (by decide) (by decide) rfl
  have h3 := C2_message_menu_bounds (Env.sample []) [Message.sample, Message.sample]
    (ReadResult.line "3") [] (by decide) (by decide) (by decide) rfl
  obtain ⟨msg, hget, hm⟩ := h.1 2 (by decide) (by decide) (by decide)
  have hmsg : msg = Message.sample := by
    simp at hget
    exact hget.symm
  subst hmsg
  refine ⟨hm, ?_⟩
  rw [(h3.2.2.1 (by decide)).1]
  rfl

/-! ## C3, C4: the timestamp codec -/

theorem dropWhile_of_head_false (f : Char → Bool) (s : Str) (hs : ∀ c ∈ s, f c = false) :
    s.dropWhile f = s := by
  cases s with
  | nil => rfl
  | cons c cs => simp [List.dropWhile_cons, hs c (List.mem_cons_self _ _)]

theorem TrimFunc_wrapped (f : Char → Bool) (q : Char) (s : Str) (hq : f q = true)
    (hs : ∀ c ∈ s, f c = false) : strings.TrimFunc (q :: (s ++ [q])) f = s := by
  unfold strings.TrimFunc
  cases s with
  | nil => simp [List.dropWhile_cons, hq]
  | cons c cs =>
    have hc : f c = false := hs c (List.mem_cons_self _ _)
    have h1 : (q :: (c :: cs ++ [q])).dropWhile f = c :: cs ++ [q] := by
      simp [List.dropWhile_cons, hq, hc]
    rw [h1]
    have h2 : (c :: cs ++ [q]).reverse = q :: (c :: cs).reverse := by simp
    rw [h2, List.dropWhile_cons, if_pos hq,
      dropWhile_of_head_false f _ (fun x hx => hs x (List.mem_reverse.mp hx))]
    simp

theorem wrapInt64_of_range (x : Int) (h1 : -(2 ^ 63) ≤ x) (h2 : x < 2 ^ 63) : wrapInt64 x = x := by
  unfold wrapInt64
  omega

theorem ParseInt_FormatUint (t : Nat) (ht : t < 2 ^ 63) :
    strconv.ParseInt (strconv.FormatUint t) = ((t : Int), none) := by
  have hd := strconv.FormatUint_digits t
  have hp := strconv.ParseUint_FormatUint t (lt_trans ht (by norm_num))
  cases hs : strconv.FormatUint t with
  | nil => exact absurd hs (strconv.FormatUint_ne_nil t)
  | cons c cs =>
    rw [hs] at hd hp
    have hc := hd c (List.mem_cons_self _ _)
    unfold strconv.ParseInt
    have h45 : ¬ c.toNat = 45 := by omega
    have h43 : ¬ c.toNat = 43 := by omega
    simp only [h45, h43, or_self, if_false, hp, decide_False]
    have hge : ¬ (t ≥ 2 ^ 63) := by omega
    simp only [hge, decide_False, Bool.and_false, Bool.false_and, if_false, Bool.not_false,
      Bool.true_and]
    simp [wrapInt64_of_range (t : Int) (by omega) (by omega)]

theorem Unix_seconds (t : Int) :
    time.Unix t 0 = ⟨0, wrapInt64 (t + time.unixToInternal), .Local⟩ := by
  unfold time.Unix
  simp

theorem FormatUint_noquote (t : Nat) :
    ∀ c ∈ strconv.FormatUint t, (fun c => [Char.ofNat 34].elem c) c = false := by
  intro c hc
  have := strconv.FormatUint_digits t c hc
  have h : c ≠ Char.ofNat 34 := by
    intro h; rw [h] at this; revert this; decide
  have hb : (c == Char.ofNat 34) = false := by simpa using h
  simp [List.elem, hb]

theorem FormatUint_ne_null (t : Nat) : strconv.FormatUint t ≠ "null".toList := by
  intro h
  have := strconv.FormatUint_digits t
  rw [h] at this
  revert this
  decide

theorem UnmarshalJSON_quoted (ut0 : UnixTime) (t : Nat) (ht : t < 2 ^ 63) :
    UnixTime.UnmarshalJSON ut0 (Char.ofNat 34 :: (strconv.FormatUint t ++ [Char.ofNat 34])) =
      .ok ⟨time.Unix (t : Int) 0⟩ := by
  unfold UnixTime.UnmarshalJSON
  have htrim : strings.Trim (Char.ofNat 34 :: (strconv.FormatUint t ++ [Char.ofNat 34]))
      [Char.ofNat 34] = strconv.FormatUint t :=
    TrimFunc_wrapped _ _ _ (by decide) (FormatUint_noquote t)
  simp only [htrim, FormatUint_ne_null t, if_false, ParseInt_FormatUint t ht]


theorem unixToInternal_eq : time.unixToInternal = 62135596800 := by decide

/-- C3, counterexample. The text `"9223372036854775807"` (`2^63 - 1` between
quotes) is decoded without error, but not to the instant `2^63 - 1` seconds
after the epoch: `time.Unix` adds the offset of the epoch in `int64`, the sum
wraps around, and the value obtained lies before the epoch. -/
theorem C3_counterexample_wraps :
    UnixTime.UnmarshalJSON ⟨time.Time.zero⟩ (quoted "9223372036854775807".toList) =
      .ok ⟨⟨0, -9223371974719179009, .Local⟩⟩ ∧
    (⟨0, -9223371974719179009, .Local⟩ : time.Time).sec ≠
      time.unixToInternal + 9223372036854775807 ∧
    time.Time.Before ⟨0, -9223371974719179009, .Local⟩ (time.Unix 0 0) = true := by
  decide

/-- C3, amended. `UnixTime.UnmarshalJSON` decodes `null`, with or without
quotes, to the zero time, and for `t` with `t + 62135596800 < 2^63` it decodes
the decimal numeral of `t` between quotes to `time.Unix(t, 0)`, the instant
with second count `unixToInternal + t` (exactly `t` seconds after the epoch)
and nanosecond 0, for which `Unix()` returns `t`. -/
theorem C3_unmarshal_timestamp (ut0 : UnixTime) (t : Nat)
    (ht : (t : Int) + 62135596800 < 2 ^ 63) :
    UnixTime.UnmarshalJSON ut0 "null".toList = .ok ⟨time.Time.zero⟩ ∧
    UnixTime.UnmarshalJSON ut0 (quoted "null".toList) = .ok ⟨time.Time.zero⟩ ∧
    UnixTime.UnmarshalJSON ut0 (quoted (strconv.FormatUint t)) = .ok ⟨time.Unix (t : Int) 0⟩ ∧
    (time.Unix (t : Int) 0).sec = time.unixToInternal + (t : Int) ∧
    (time.Unix (t : Int) 0).nsec = 0 ∧
    (time.Unix (t : Int) 0).Unix = (t : Int) := by
  have h1 : UnixTime.UnmarshalJSON ut0 "null".toList = .ok ⟨time.Time.zero⟩ := by
    unfold UnixTime.UnmarshalJSON
    have : strings.Trim "null".toList [Char.ofNat 34] = "null".toList := by decide
    rw [this]; rfl
  have h2 : UnixTime.UnmarshalJSON ut0 (quoted "null".toList) = .ok ⟨time.Time.zero⟩ := by
    unfold UnixTime.UnmarshalJSON
    have : strings.Trim (quoted "null".toList) [Char.ofNat 34] = "null".toList := by decide
    rw [this]; rfl
  have h3 := UnmarshalJSON_quoted ut0 t (by omega)
  have hw : wrapInt64 ((t : Int) + 62135596800) = (t : Int) + 62135596800 :=
    wrapInt64_of_range _ (by omega) (by omega)
  refine ⟨h1, h2, h3, ?_, ?_, ?_⟩
  · rw [Unix_seconds, time.Time.sec, unixToInternal_eq, hw]
    norm_num
    omega
  · rw [Unix_seconds]
    simp [time.Time.nsec]
  · rw [Unix_seconds, time.Time.Unix, time.Time.sec, unixToInternal_eq, hw]
    norm_num
    exact wrapInt64_of_range _ (by omega) (by omega)

/-- The statement of C3 at `t = 1500000000`. -/
theorem C3_unmarshal_timestamp_witness :
    UnixTime.UnmarshalJSON ⟨time.Time.zero⟩ (quoted (strconv.FormatUint 1500000000)) =
      .ok ⟨time.Unix 1500000000 0⟩ ∧
    (time.Unix 1500000000 0).sec = time.unixToInternal + 1500000000 :=
  have h := C3_unmarshal_timestamp ⟨time.Time.zero⟩ 1500000000 (by decide)
  ⟨h.2.2.1, h.2.2.2.1⟩

theorem MarshalJSON_never_numeral (ut : UnixTime) (t : Nat) :
    UnixTime.MarshalJSON ut ≠ quoted (strconv.FormatUint t) := by
  cases hs : strconv.FormatUint t with
  | nil => exact absurd hs (strconv.FormatUint_ne_nil t)
  | cons c cs =>
    have hd := strconv.FormatUint_digits t c (by rw [hs]; exact List.mem_cons_self _ _)
    unfold UnixTime.MarshalJSON
    split
    · intro h
      have h0 := congrArg List.head? h
      simp only [quoted, List.head?_cons] at h0
      revert h0
      decide
    · intro h
      have h1 := congrArg (fun l => l.get? 1) h
      have h37 : c = Char.ofNat 37 := by
        simp [quoted, fmt.badVerb, String.toList] at h1
        exact h1.symm
      rw [h37] at hd
      revert hd
      decide

/-- C4 (code defect). `UnixTime.MarshalJSON` formats the seconds with the
verb `%i`, which `fmt` does not have: the output is `"%!i(int64=N)"` and never
the numeral between quotes, for any value; decoding that output again ends in
`log.Fatal`. Shown at the value decoded from `"1500000000"`. -/
theorem C4_marshal_bad_verb :
    UnixTime.UnmarshalJSON ⟨time.Time.zero⟩ (quoted "1500000000".toList) =
      .ok ⟨time.Unix 1500000000 0⟩ ∧
    UnixTime.MarshalJSON ⟨time.Unix 1500000000 0⟩ = quoted "%!i(int64=1500000000)".toList ∧
    UnixTime.UnmarshalJSON ⟨time.Time.zero⟩ (UnixTime.MarshalJSON ⟨time.Unix 1500000000 0⟩) =
      .error (.num .ErrSyntax "%!i(int64=1500000000)".toList) ∧
    ∀ (ut : UnixTime) (t : Nat), UnixTime.MarshalJSON ut ≠ quoted (strconv.FormatUint t) :=
  ⟨by decide, by decide, by decide, MarshalJSON_never_numeral⟩

/-! ## C5, C8: the snapshot decoder -/

theorem decodes_false (l : Str) (h : fetchQueue.decodes l = false) (msg : Message) :
    json.Unmarshal l Message.empty ≠ .ok (msg, none) := by
  intro hu
  simp [fetchQueue.decodes, hu] at h

theorem decodes_true (l : Str) (h : fetchQueue.decodes l = true) :
    ∃ msg, json.Unmarshal l Message.empty = .ok (msg, none) := by
  unfold fetchQueue.decodes at h
  split at h
  · rename_i msg hu
    exact ⟨msg, hu⟩
  · cases h

theorem fetchQueue_loop_error (lines : List Str) (acc : Messages) (l : Str) (hl : l ∈ lines)
    (hbad : ∀ msg, json.Unmarshal l Message.empty ≠ .ok (msg, none)) :
    ∃ e, fetchQueue.loop lines acc = .error e := by
  induction lines generalizing acc with
  | nil => cases hl
  | cons v vs ih =>
    rw [fetchQueue.loop]
    rcases hu : json.Unmarshal v Message.empty with e | ⟨msg, _ | e⟩
    · exact ⟨e, rfl⟩
    · rcases List.mem_cons.mp hl with rfl | hl
      · exact absurd hu (hbad msg)
      · exact ih _ hl
    · exact ⟨e, rfl⟩

theorem fetchQueue_loop_ok (lines : List Str) (acc : Messages)
    (h : ∀ l ∈ lines, ∃ msg, json.Unmarshal l Message.empty = .ok (msg, none)) :
    ∃ ms, fetchQueue.loop lines acc = .ok (acc ++ ms) ∧
      List.Forall₂ (fun l msg => json.Unmarshal l Message.empty = .ok (msg, none)) lines ms := by
  induction lines generalizing acc with
  | nil => exact ⟨[], by simp [fetchQueue.loop], List.Forall₂.nil⟩
  | cons v vs ih =>
    obtain ⟨msg, hv⟩ := h v (List.mem_cons_self _ _)
    obtain ⟨ms, hms, hf⟩ := ih (acc ++ [msg]) (fun l hl => h l (List.mem_cons_of_mem _ hl))
    refine ⟨msg :: ms, ?_, List.Forall₂.cons hv hf⟩
    rw [fetchQueue.loop, hv]
    simp only [hms, List.append_assoc, List.singleton_append]

theorem SplitLines_ne_nil (s : Str) : strings.SplitLines s ≠ [] := by
  cases s with
  | nil => simp [strings.SplitLines]
  | cons c cs =>
    rw [strings.SplitLines]
    split
    · simp
    · split <;> simp

/-- C5. If some line of the trimmed listing does not decode (`json.Unmarshal`
returns an error, or `UnixTime.UnmarshalJSON` calls `log.Fatal`), the
decoding in `fetchQueue` yields no `Messages` at all but the error given to
`log.Fatal`, whatever lines precede or follow, and the pass of the session
loop ends the process with exit status 1 without reading operator input. -/
theorem C5_decode_fail_fast (env : Env) (postsuper postcat : Str) (n : Nat) (raw l : Str)
    (stdin : List ReadResult) (hraw : env.Listing n = .ok raw)
    (hl : l ∈ strings.SplitLines (strings.TrimSpace raw))
    (hbad : fetchQueue.decodes l = false) :
    (∃ e, fetchQueue.decode raw = .error e) ∧
    (∃ e, (fetchQueue env n).2 = .error e) ∧
    (main.pass env postsuper postcat n stdin).next = .stop (.exit 1) ∧
    (main.pass env postsuper postcat n stdin).rest = stdin := by
  obtain ⟨e, he⟩ := fetchQueue_loop_error _ [] l hl (decodes_false l hbad)
  have hd : fetchQueue.decode raw = .error e := he
  have hf : ∃ e, (fetchQueue env n).2 = .error e := by
    unfold fetchQueue
    rcases env.LookPath "postqueue".toList with e1 | pq
    · exact ⟨e1, rfl⟩
    · simp only [hraw, hd]
      exact ⟨e, rfl⟩
  obtain ⟨e2, he2⟩ := hf
  refine ⟨⟨e, hd⟩, ⟨e2, he2⟩, ?_, ?_⟩
  · unfold main.pass
    rcases hq : fetchQueue env n with ⟨ev, r⟩
    rw [hq] at he2
    simp only at he2
    subst he2
    rfl
  · unfold main.pass
    rcases hq : fetchQueue env n with ⟨ev, r⟩
    rw [hq] at he2
    simp only at he2
    subst he2
    rfl

set_option maxRecDepth 100000 in
/-- The statement of C5 on a well-formed record followed by a record with a
bad timestamp, and followed by a record cut short. -/
theorem C5_decode_fail_fast_witness :
    (∃ e, fetchQueue.decode (Sample.record ++ [Char.ofNat 10] ++ Sample.badTime) = .error e) ∧
    (∃ e, fetchQueue.decode (Sample.record ++ [Char.ofNat 10] ++ Sample.truncated) = .error e) ∧
    json.Unmarshal Sample.record Message.empty = .ok (Message.sample, none) :=
  ⟨(C5_decode_fail_fast
      (Env.sample (Sample.record ++ [Char.ofNat 10] ++ Sample.badTime)) [] [] 0
      (Sample.record ++ [Char.ofNat 10] ++ Sample.badTime) Sample.badTime [] rfl
      (by decide) (by decide)).1,
   (C5_decode_fail_fast
      (Env.sample (Sample.record ++ [Char.ofNat 10] ++ Sample.truncated)) [] [] 0
      (Sample.record ++ [Char.ofNat 10] ++ Sample.truncated) Sample.truncated [] rfl
      (by decide) (by decide)).1,
   by decide⟩

/-- C8. If every line of the trimmed listing decodes, the decoding in
`fetchQueue` returns exactly one message per line, in the order of the lines:
the `i`-th message is what `json.Unmarshal` makes of the `i`-th line. -/
theorem C8_order_preserved (raw : Str)
    (h : ∀ l ∈ strings.SplitLines (strings.TrimSpace raw), fetchQueue.decodes l = true) :
    ∃ ms, fetchQueue.decode raw = .ok ms ∧
      1 ≤ ms.length ∧
      ms.length = (strings.SplitLines (strings.TrimSpace raw)).length ∧
      List.Forall₂ (fun l msg => json.Unmarshal l Message.empty = .ok (msg, none))
        (strings.SplitLines (strings.TrimSpace raw)) ms := by
  obtain ⟨ms, hms, hf⟩ := fetchQueue_loop_ok _ [] (fun l hl => decodes_true l (h l hl))
  have hlen := hf.length_eq
  refine ⟨ms, by simpa [fetchQueue.decode] using hms, ?_, hlen.symm, hf⟩
  have := SplitLines_ne_nil (strings.TrimSpace raw)
  rw [← hlen]
  exact Nat.one_le_iff_ne_zero.mpr (fun h0 => this (List.length_eq_zero.mp h0))

set_option maxRecDepth 100000 in
/-- The statement of C8 on a listing of two records. -/
theorem C8_order_preserved_witness :
    ∃ ms, fetchQueue.decode Sample.listing = .ok ms ∧
      1 ≤ ms.length ∧
      ms.length = (strings.SplitLines (strings.TrimSpace Sample.listing)).length ∧
      List.Forall₂ (fun l msg => json.Unmarshal l Message.empty = .ok (msg, none))
        (strings.SplitLines (strings.TrimSpace Sample.listing)) ms :=
  C8_order_preserved Sample.listing (by decide)

/-! ## C6: timestamps that are not integers -/

theorem parseUintLoop_err (s : Str) (n v : Nat) (e : strconv.NumError)
    (h : strconv.parseUintLoop s n = (v, some e)) :
    e = .ErrSyntax ∨ v = strconv.maxUint64 := by
  induction s generalizing n with
  | nil => simp [strconv.parseUintLoop] at h
  | cons c cs ih =>
    rw [strconv.parseUintLoop] at h
    split at h
    · simp only at h
      split at h
      · simp only [Prod.mk.injEq] at h
        exact Or.inr h.1.symm
      · split at h
        · simp only [Prod.mk.injEq] at h
          exact Or.inr h.1.symm
        · exact ih _ h
    · simp only [Prod.mk.injEq, Option.some.injEq] at h
      exact Or.inl h.2.symm

theorem ParseUint_err (s : Str) (v : Nat) (e : strconv.NumError)
    (h : strconv.ParseUint s = (v, some e)) : e = .ErrSyntax ∨ v = strconv.maxUint64 := by
  cases s with
  | nil =>
    simp only [strconv.ParseUint, Prod.mk.injEq, Option.some.injEq] at h
    exact Or.inl h.2.symm
  | cons c cs => exact parseUintLoop_err _ _ _ _ h

theorem ParseInt_tail (neg : Bool) (r : Nat × Option strconv.NumError) (v : Int)
    (hr : ∀ e, r.2 = some e → e = .ErrSyntax ∨ r.1 = strconv.maxUint64)
    (h : (if r.2 = some .ErrSyntax then ((0 : Int), some strconv.NumError.ErrSyntax)
      else if !neg && decide (r.1 ≥ 2 ^ 63) then (2 ^ 63 - 1, some .ErrRange)
      else if neg && decide (r.1 > 2 ^ 63) then (-(2 ^ 63), some .ErrRange)
      else (if neg then wrapInt64 (-wrapInt64 (r.1 : Int)) else wrapInt64 (r.1 : Int), none)) =
        (v, none)) :
    r.2 = none ∧ (if neg then r.1 ≤ 2 ^ 63 else r.1 < 2 ^ 63) := by
  rcases r with ⟨u, _ | e⟩
  · refine ⟨rfl, ?_⟩
    cases neg
    · simp only [Bool.not_false, Bool.true_and, Bool.false_and, decide_eq_true_eq,
        Bool.false_eq_true, if_false, reduceCtorEq] at h ⊢
      split at h
      · cases h
      · omega
    · simp only [Bool.not_true, Bool.true_and, Bool.false_and, decide_eq_true_eq,
        Bool.false_eq_true, if_false, if_true, reduceCtorEq] at h ⊢
      split at h
      · cases h
      · omega
  · exfalso
    rcases hr e rfl with he | hu
    · subst he
      rw [if_pos rfl] at h
      cases h
    · simp only at hu
      subst hu
      simp only at h
      split at h
      · cases h
      · cases neg
        · have hc : (!false && decide (strconv.maxUint64 ≥ 2 ^ 63)) = true := by decide
          rw [if_pos hc] at h
          cases h
        · have hc1 : ¬ (!true && decide (strconv.maxUint64 ≥ 2 ^ 63)) = true := by decide
          have hc2 : (true && decide (strconv.maxUint64 > 2 ^ 63)) = true := by decide
          rw [if_neg hc1, if_pos hc2] at h
          cases h

theorem ParseInt_ok (s : Str) (v : Int) (h : strconv.ParseInt s = (v, none)) :
    Spec.validInt64 s = true := by
  cases s with
  | nil => cases h
  | cons c cs =>
    have key := ParseInt_tail (decide (c.toNat = 45))
      (strconv.ParseUint (if c.toNat = 43 ∨ c.toNat = 45 then cs else c :: cs)) v
      (fun e he => ParseUint_err _ _ e (Prod.ext rfl he)) h
    obtain ⟨k1, k2⟩ := key
    have hok := strconv.ParseUint_ok _ _ (Prod.ext rfl k1 :
      strconv.ParseUint (if c.toNat = 43 ∨ c.toNat = 45 then cs else c :: cs) =
        ((strconv.ParseUint (if c.toNat = 43 ∨ c.toNat = 45 then cs else c :: cs)).1, none))
    obtain ⟨n1, n2, _⟩ := hok
    rw [n2] at k2
    unfold Spec.validInt64
    by_cases h45 : c.toNat = 45
    · simp only [h45, or_true, if_true, decide_True] at n1 k2 ⊢
      simp only [n1, Bool.true_and, decide_eq_true_eq]
      exact k2
    · by_cases h43 : c.toNat = 43
      · have h45n : ¬ ((43 : Nat) = 45) := by decide
        simp only [h43, true_or, if_true, h45n, decide_False, if_false,
          Bool.false_eq_true] at n1 k2 ⊢
        simp only [n1, Bool.true_and, decide_eq_true_eq]
        exact k2
      · simp only [h45, h43, or_self, if_false, decide_False, Bool.false_eq_true] at n1 k2 ⊢
        simp only [n1, Bool.true_and, decide_eq_true_eq]
        exact k2

/-- C6. A timestamp text that, once the surrounding double quotes are
stripped, is neither `null` nor a valid base-10 signed 64-bit integer (an
optional sign and a decimal numeral with value in `[-2^63, 2^63)`) is never
decoded: `UnixTime.UnmarshalJSON` ends the process through `log.Fatal` with
the error of `strconv.ParseInt` for that text. -/
theorem C6_bad_timestamp_fatal (ut0 : UnixTime) (b : Str)
    (hnull : strings.Trim b [Char.ofNat 34] ≠ "null".toList)
    (hbad : Spec.validInt64 (strings.Trim b [Char.ofNat 34]) = false) :
    ∃ kind, UnixTime.UnmarshalJSON ut0 b =
      .error (.num kind (strings.Trim b [Char.ofNat 34])) := by
  unfold UnixTime.UnmarshalJSON
  simp only [hnull, if_false]
  rcases hp : strconv.ParseInt (strings.Trim b [Char.ofNat 34]) with ⟨v, _ | e⟩
  · have := ParseInt_ok _ v hp
    rw [hbad] at this
    cases this
  · exact ⟨e, rfl⟩

/-- The statement of C6 at the texts `abc`, the empty text, `1.5`, `2^63` and
`-2^63 - 1`, each between quotes. -/
theorem C6_bad_timestamp_fatal_witness :
    (∃ kind, UnixTime.UnmarshalJSON ⟨time.Time.zero⟩ (quoted "abc".toList) =
      .error (.num kind (strings.Trim (quoted "abc".toList) [Char.ofNat 34]))) ∧
    (∃ kind, UnixTime.UnmarshalJSON ⟨time.Time.zero⟩ (quoted []) =
      .error (.num kind (strings.Trim (quoted []) [Char.ofNat 34]))) ∧
    (∃ kind, UnixTime.UnmarshalJSON ⟨time.Time.zero⟩ (quoted "1.5".toList) =
      .error (.num kind (strings.Trim (quoted "1.5".toList) [Char.ofNat 34]))) ∧
    (∃ kind, UnixTime.UnmarshalJSON ⟨time.Time.zero⟩ (quoted "9223372036854775808".toList) =
      .error (.num kind (strings.Trim (quoted "9223372036854775808".toList) [Char.ofNat 34]))) ∧
    (∃ kind, UnixTime.UnmarshalJSON ⟨time.Time.zero⟩ (quoted "-9223372036854775809".toList) =
      .error (.num kind
        (strings.Trim (quoted "-9223372036854775809".toList) [Char.ofNat 34]))) :=
  ⟨C6_bad_timestamp_fatal _ _ (by decide) (by decide),
   C6_bad_timestamp_fatal _ _ (by decide) (by decide),
   C6_bad_timestamp_fatal _ _ (by decide) (by decide),
   C6_bad_timestamp_fatal _ _ (by decide) (by decide),
   C6_bad_timestamp_fatal _ _ (by decide) (by decide)⟩

/-! ## C7: the dispatch -/

theorem menu_choose_valid (r : ReadResult) (k : Nat) (h1 : 1 ≤ k) (h6 : k ≤ 6)
    (hk : strings.TrimSpace r.text = strconv.FormatUint k) :
    menu.choose verbs r.text = ((k : Int) - 1, r.text) := by
  have hp : strconv.ParseUint (strings.TrimSpace r.text) = (k, none) := by
    rw [hk]; exact strconv.ParseUint_FormatUint k (by omega)
  unfold menu.choose
  rw [hp]
  have hlen : ((verbs.length : Nat) : Int) = 6 := by decide
  have hw : wrapInt64 (k : Int) = (k : Int) := wrapInt64_of_range _ (by omega) (by omega)
  have hc : ¬ (k = 0 ∨ wrapInt64 (k : Int) > ((verbs.length : Nat) : Int)) := by
    rw [hw, hlen]; omega
  simp only [hc, if_false]
  have hu : wrapUint64 (k + 2 ^ 64 - 1) = k - 1 := by
    unfold wrapUint64; omega
  have hw2 : wrapInt64 ((k - 1 : Nat) : Int) = (k : Int) - 1 := by
    rw [wrapInt64_of_range ((k - 1 : Nat) : Int) (by omega) (by omega)]
    omega
  rw [hu, hw2]

theorem main_act_index (env : Env) (postsuper postcat : Str) (n : Nat) (m : Message)
    (r : ReadResult) (rest : List ReadResult) (i : Int) (hi : 0 ≤ i)
    (hc : menu.choose verbs r.text = (i, r.text)) :
    main.act env postsuper postcat n m (r :: rest) =
      ⟨menu.rows 0 verbs ++ [.stdout ("Select action: ".toList ++ " ".toList)] ++
          (main.dispatch env postsuper postcat n m i rest).events,
        (main.dispatch env postsuper postcat n m i rest).next,
        (main.dispatch env postsuper postcat n m i rest).rest⟩ := by
  unfold main.act menu
  simp only [hc, show ¬ i < 0 by omega, if_false]

theorem main_dispatch_run (env : Env) (postsuper postcat : Str) (n : Nat) (m : Message)
    (i : Int) (rest : List ReadResult) (verb path : Str) (args : List Str)
    (hv : verbs[i.toNat]? = some verb)
    (hcmd : main.command postsuper postcat verb m.Id = some (some (path, args))) :
    (main.dispatch env postsuper postcat n m i rest).events.filter Event.isRun =
        [.run path args] ∧
      (main.dispatch env postsuper postcat n m i rest).rest = rest ∧
      ((∃ out, env.CombinedOutput n path args = .ok out ∧
          main.dispatch env postsuper postcat n m i rest =
            ⟨[.run path args, .stdout (out ++ [Char.ofNat 10])], .refetch, rest⟩) ∨
        (∃ e, env.CombinedOutput n path args = .error e ∧
          main.dispatch env postsuper postcat n m i rest =
            ⟨[.run path args, .fatal e], .stop (.exit 1), rest⟩)) := by
  unfold main.dispatch
  simp only [hv, hcmd]
  rcases env.CombinedOutput n path args with e | out
  · exact ⟨rfl, rfl, Or.inr ⟨e, rfl, rfl⟩⟩
  · exact ⟨rfl, rfl, Or.inl ⟨out, rfl, rfl⟩⟩

theorem main_act_run (env : Env) (postsuper postcat : Str) (n : Nat) (m : Message)
    (r : ReadResult) (rest : List ReadResult) (k : Nat) (h1 : 1 ≤ k) (h6 : k ≤ 6)
    (hk : strings.TrimSpace r.text = strconv.FormatUint k) (verb path : Str) (args : List Str)
    (hv : verbs[((k : Int) - 1).toNat]? = some verb)
    (hcmd : main.command postsuper postcat verb m.Id = some (some (path, args))) :
    (main.act env postsuper postcat n m (r :: rest)).events.filter Event.isRun =
        [.run path args] ∧
      ((main.act env postsuper postcat n m (r :: rest)).next = .refetch ∨
        (main.act env postsuper postcat n m (r :: rest)).next = .stop (.exit 1)) := by
  rw [main_act_index env postsuper postcat n m r rest ((k : Int) - 1) (by omega)
    (menu_choose_valid r k h1 h6 hk)]
  obtain ⟨hf, _, hcase⟩ :=
    main_dispatch_run env postsuper postcat n m ((k : Int) - 1) rest verb path args hv hcmd
  refine ⟨?_, ?_⟩
  · simp only [List.filter_append, hf]
    rfl
  · rcases hcase with ⟨out, _, hd⟩ | ⟨e, _, hd⟩
    · left; rw [hd]
    · right; rw [hd]

/-- C7. At action selection, for the chosen message `m` and the action number
`k` from 1 to 6 (the trimmed line is the numeral of `k`), the pass runs exactly
one external command, with the id of `m` as its last argument: 1 runs
`postcat -q id`, 2 `postsuper -h id`, 3 `postsuper -H id`, 4 `postsuper -r id`,
5 `postsuper -d id` (after which the loop continues, or the process ends with
status 1 if the command failed); 6 runs no command and ends the process with
`os.Exit(0)`. The five pairs of tool and flag are pairwise distinct. -/
theorem C7_dispatch_table (env : Env) (postsuper postcat : Str) (n : Nat) (m : Message)
    (r : ReadResult) (rest : List ReadResult) (k : Nat) (h1 : 1 ≤ k) (h6 : k ≤ 6)
    (hk : strings.TrimSpace r.text = strconv.FormatUint k) :
    (k = 1 → (main.act env postsuper postcat n m (r :: rest)).events.filter Event.isRun =
      [.run postcat ["-q".toList, m.Id]]) ∧
    (k = 2 → (main.act env postsuper postcat n m (r :: rest)).events.filter Event.isRun =
      [.run postsuper ["-h".toList, m.Id]]) ∧
    (k = 3 → (main.act env postsuper postcat n m (r :: rest)).events.filter Event.isRun =
      [.run postsuper ["-H".toList, m.Id]]) ∧
    (k = 4 → (main.act env postsuper postcat n m (r :: rest)).events.filter Event.isRun =
      [.run postsuper ["-r".toList, m.Id]]) ∧
    (k = 5 → (main.act env postsuper postcat n m (r :: rest)).events.filter Event.isRun =
      [.run postsuper ["-d".toList, m.Id]]) ∧
    (k ≤ 5 → (main.act env postsuper postcat n m (r :: rest)).next = .refetch ∨
      (main.act env postsuper postcat n m (r :: rest)).next = .stop (.exit 1)) ∧
    (k = 6 → (main.act env postsuper postcat n m (r :: rest)).events.filter Event.isRun = [] ∧
      (main.act env postsuper postcat n m (r :: rest)).next = .stop (.exit 0)) ∧
    [(postcat, "-q".toList), (postsuper, "-h".toList), (postsuper, "-H".toList),
      (postsuper, "-r".toList), (postsuper, "-d".toList)].Nodup := by
  have run := main_act_run env postsuper postcat n m r rest k h1 h6 hk
  refine ⟨?_, ?_, ?_, ?_, ?_, ?_, ?_, ?_⟩
  · rintro rfl
    exact (run "Read".toList postcat ["-q".toList, m.Id] rfl rfl).1
  · rintro rfl
    exact (run "Hold".toList postsuper ["-h".toList, m.Id] rfl rfl).1
  · rintro rfl
    exact (run "Unhold".toList postsuper ["-H".toList, m.Id] rfl rfl).1
  · rintro rfl
    exact (run "Requeue".toList postsuper ["-r".toList, m.Id] rfl rfl).1
  · rintro rfl
    exact (run "Delete".toList postsuper ["-d".toList, m.Id] rfl rfl).1
  · intro h5
    interval_cases k
    · exact (run "Read".toList postcat ["-q".toList, m.Id] rfl rfl).2
    · exact (run "Hold".toList postsuper ["-h".toList, m.Id] rfl rfl).2
    · exact (run "Unhold".toList postsuper ["-H".toList, m.Id] rfl rfl).2
    · exact (run "Requeue".toList postsuper ["-r".toList, m.Id] rfl rfl).2
    · exact (run "Delete".toList postsuper ["-d".toList, m.Id] rfl rfl).2
  · rintro rfl
    rw [main_act_index env postsuper postcat n m r rest ((6 : Nat) - 1 : Int) (by omega)
      (menu_choose_valid r 6 h1 h6 hk)]
    have hd : main.dispatch env postsuper postcat n m ((6 : Nat) - 1 : Int) rest =
        ⟨[], .stop (.exit 0), rest⟩ := rfl
    rw [hd]
    exact ⟨rfl, rfl⟩
  · apply List.Nodup.of_map Prod.snd
    simp only [List.map_cons, List.map_nil]
    decide

/-- The statement of C7 at the line `5`: the command is `postsuper -d` on the
id of the message. -/
theorem C7_dispatch_table_witness :
    (main.act (Env.sample []) "/usr/sbin/postsuper".toList "/usr/sbin/postcat".toList 0
        Message.sample [ReadResult.line "5"]).events.filter Event.isRun =
      [.run "/usr/sbin/postsuper".toList ["-d".toList, "ABC123".toList]] :=
  (C7_dispatch_table (Env.sample []) "/usr/sbin/postsuper".toList "/usr/sbin/postcat".toList 0
    Message.sample (ReadResult.line "5") [] 5 (by decide) (by decide) (by decide)).2.2.2.2.1 rfl

/-! ## C9, C10: the glyph, the empty listing -/

/-- C9. `Message.QueueChar` is `*` for the queue `active`, one space for
`deferred`, `!` for `hold`, and the queue name itself for any other name. -/
theorem C9_queue_char (m : Message) :
    (m.Queue = "active".toList → m.QueueChar = "*".toList) ∧
    (m.Queue = "deferred".toList → m.QueueChar = " ".toList) ∧
    (m.Queue = "hold".toList → m.QueueChar = "!".toList) ∧
    (m.Queue ≠ "active".toList → m.Queue ≠ "deferred".toList → m.Queue ≠ "hold".toList →
      m.QueueChar = m.Queue) := by
  refine ⟨?_, ?_, ?_, ?_⟩
  · intro h
    unfold Message.QueueChar
    rw [h]
    rfl
  · intro h
    unfold Message.QueueChar
    rw [h]
    rfl
  · intro h
    unfold Message.QueueChar
    rw [h]
    rfl
  · intro h1 h2 h3
    unfold Message.QueueChar
    rw [if_neg h2, if_neg h1, if_neg h3]

/-- The statement of C9 at a message of the queue `hold` and at a message with
an empty queue name. -/
theorem C9_queue_char_witness :
    Message.sample.QueueChar = "!".toList ∧ Message.empty.QueueChar = [] :=
  ⟨(C9_queue_char Message.sample).2.2.1 rfl,
   (C9_queue_char Message.empty).2.2.2 (by decide) (by decide) (by decide)⟩

theorem TrimSpace_blank (raw : Str) (hws : ∀ c ∈ raw, unicode.IsSpace c = true) :
    strings.TrimSpace raw = [] := by
  unfold strings.TrimSpace strings.TrimFunc
  have h : raw.dropWhile unicode.IsSpace = [] := List.dropWhile_eq_nil_iff.mpr hws
  rw [h]
  rfl

theorem decode_blank (raw : Str) (hws : ∀ c ∈ raw, unicode.IsSpace c = true) :
    fetchQueue.decode raw = .error .jsonSyntax := by
  unfold fetchQueue.decode
  rw [TrimSpace_blank raw hws]
  rfl

/-- C10, counterexample. With an empty listing the session does not end with
exit code 0: the one line that `strings.Split` makes of the empty text is
given to `json.Unmarshal`, its error goes to `log.Fatal`, and the process
ends with exit status 1. -/
theorem C10_counterexample_exit_status :
    main (Env.sample []) 1 [] =
      ([.run "/usr/sbin/postqueue".toList ["-j".toList], .fatal .jsonSyntax], .exit 1) ∧
    (main (Env.sample []) 1 []).2 ≠ .exit 0 := by
  decide

/-- C10, amended. When the output of the listing is empty or made of white
space only, the session ends in its first pass through `log.Fatal`, with exit
status 1; a diagnostic is logged, and nothing is written to standard output:
no menu row, no prompt. -/
theorem C10_empty_listing_fatal (env : Env) (fuel : Nat) (stdin : List ReadResult)
    (raw postsuper postcat postqueue : Str)
    (hps : env.LookPath "postsuper".toList = .ok postsuper)
    (hpc : env.LookPath "postcat".toList = .ok postcat)
    (hpq : env.LookPath "postqueue".toList = .ok postqueue)
    (hraw : env.Listing 0 = .ok raw) (hws : ∀ c ∈ raw, unicode.IsSpace c = true) :
    (main env (fuel + 1) stdin).2 = .exit 1 ∧
    (main env (fuel + 1) stdin).1.filter Event.isStdout = [] ∧
    ∃ e, (main env (fuel + 1) stdin).1.getLast? = some (.fatal e) := by
  have hm : main env (fuel + 1) stdin =
      ([.run postqueue ["-j".toList], .fatal .jsonSyntax], .exit 1) := by
    unfold main
    simp only [hps, hpc]
    rw [main.loop]
    unfold main.pass fetchQueue
    simp only [hpq, hraw, decode_blank raw hws]
    rfl
  rw [hm]
  exact ⟨rfl, rfl, ⟨_, rfl⟩⟩

/-- The statement of C10 at a listing of four white space characters. -/
theorem C10_empty_listing_fatal_witness :
    (main (Env.sample [Char.ofNat 32, Char.ofNat 10, Char.ofNat 9, Char.ofNat 32]) 3 [ReadResult.line "1"]).2 = .exit 1 ∧
    (main (Env.sample [Char.ofNat 32, Char.ofNat 10, Char.ofNat 9, Char.ofNat 32]) 3 [ReadResult.line "1"]).1.filter Event.isStdout = [] ∧
    ∃ e, (main (Env.sample [Char.ofNat 32, Char.ofNat 10, Char.ofNat 9, Char.ofNat 32]) 3 [ReadResult.line "1"]).1.getLast? =
      some (.fatal e) :=
  C10_empty_listing_fatal (Env.sample [Char.ofNat 32, Char.ofNat 10, Char.ofNat 9, Char.ofNat 32]) 2 [ReadResult.line "1"] [Char.ofNat 32, Char.ofNat 10, Char.ofNat 9, Char.ofNat 32]
    "/usr/sbin/postsuper".toList "/usr/sbin/postcat".toList "/usr/sbin/postqueue".toList
    rfl rfl rfl rfl (by decide)

/-! ## The fuel of the scanners: more fuel changes no result -/

namespace strconv

theorem formatDigits_fuel (f n : Nat) (h : n < 10 ^ (f + 1)) :
    formatDigits (f + 2) n = formatDigits (f + 1) n := by
  induction f generalizing n with
  | zero =>
    have h10 : n < 10 := by simpa using h
    simp [formatDigits, h10]
  | succ f ih =>
    conv => lhs; unfold formatDigits
    conv => rhs; unfold formatDigits
    split
    · rfl
    · have hq : n / 10 < 10 ^ (f + 1) := by
        rw [pow_succ] at h
        exact Nat.div_lt_of_lt_mul (by omega)
      rw [ih _ hq]

end strconv

namespace json

theorem skipSpace_length (s : Str) : (skipSpace s).length ≤ s.length :=
  (List.dropWhile_suffix isSpace).length_le

theorem scanWord_length (w s r : Str) (h : scanWord w s = some r) : r.length ≤ s.length := by
  unfold scanWord at h
  split at h
  · simp only [Option.some.injEq] at h
    rw [← h, List.length_drop]; omega
  · simp at h

theorem scanDigits_length (s ds r : Str) (h : scanDigits s = some (ds, r)) :
    r.length ≤ s.length := by
  unfold scanDigits at h
  split at h
  · simp at h
  · simp only [Option.some.injEq, Prod.mk.injEq] at h
    rw [← h.2]
    exact (List.dropWhile_suffix isDigit).length_le

theorem scanExponent_length (s l r : Str) (h : scanExponent s = some (l, r)) :
    r.length ≤ s.length := by
  unfold scanExponent at h
  split at h
  · rename_i c cs
    split at h
    · split at h
      · rename_i g gs
        split at h
        · simp only [Option.map_eq_some', Prod.mk.injEq] at h
          obtain ⟨⟨l1, r1⟩, h1, _, h3⟩ := h
          have := scanDigits_length _ _ _ h1
          simp only at h3
          subst h3
          simp only [List.length_cons]
          omega
        · simp only [Option.map_eq_some', Prod.mk.injEq] at h
          obtain ⟨⟨l1, r1⟩, h1, _, h3⟩ := h
          have := scanDigits_length _ _ _ h1
          simp only at h3
          subst h3
          simp only [List.length_cons] at this ⊢
          omega
      · simp at h
    · simp only [Option.some.injEq, Prod.mk.injEq] at h
      rw [← h.2]
  · simp only [Option.some.injEq, Prod.mk.injEq] at h
    rw [← h.2]

theorem scanFraction_length (s l r : Str) (h : scanFraction s = some (l, r)) :
    r.length ≤ s.length := by
  unfold scanFraction at h
  split at h
  · rename_i c cs
    split at h
    · split at h
      · rename_i ds r0 hd
        simp only [Option.map_eq_some', Prod.mk.injEq] at h
        obtain ⟨⟨l1, r1⟩, h1, _, h3⟩ := h
        have h4 := scanExponent_length _ _ _ h1
        have h5 := scanDigits_length _ _ _ hd
        simp only at h3
        subst h3
        simp only [List.length_cons]
        omega
      · simp at h
    · exact scanExponent_length _ _ _ h
  · simp only [Option.some.injEq, Prod.mk.injEq] at h
    rw [← h.2]

theorem scanUnsigned_length (s l r : Str) (h : scanUnsigned s = some (l, r)) :
    r.length ≤ s.length := by
  unfold scanUnsigned at h
  split at h
  · rename_i c cs
    split at h
    · simp only [Option.map_eq_some', Prod.mk.injEq] at h
      obtain ⟨⟨l1, r1⟩, h1, _, h3⟩ := h
      have := scanFraction_length _ _ _ h1
      simp only at h3
      subst h3
      simp only [List.length_cons]
      omega
    · split at h
      · simp only [Option.map_eq_some', Prod.mk.injEq] at h
        obtain ⟨⟨l1, r1⟩, h1, _, h3⟩ := h
        have h4 := scanFraction_length _ _ _ h1
        have h5 := (List.dropWhile_suffix (l := cs) isDigit).length_le
        simp only at h3
        subst h3
        simp only [List.length_cons]
        omega
      · simp at h
  · simp at h

theorem scanNumber_length (s l r : Str) (h : scanNumber s = some (l, r)) :
    r.length ≤ s.length := by
  unfold scanNumber at h
  split at h
  · rename_i c cs
    split at h
    · simp only [Option.map_eq_some', Prod.mk.injEq] at h
      obtain ⟨⟨l1, r1⟩, h1, _, h3⟩ := h
      have := scanUnsigned_length _ _ _ h1
      simp only at h3
      subst h3
      simp only [List.length_cons]
      omega
    · exact scanUnsigned_length _ _ _ h
  · simp at h

theorem scanString_length (f : Nat) : ∀ (s lit r : Str),
    scanString f s = some (lit, r) → r.length < s.length := by
  induction f with
  | zero => intro s lit r h; simp [scanString] at h
  | succ f ih =>
    intro s lit r h
    unfold scanString at h
    cases s with
    | nil => simp at h
    | cons c cs =>
      simp only at h
      split at h
      · simp only [Option.some.injEq, Prod.mk.injEq] at h
        rw [← h.2]; simp
      · split at h
        · cases cs with
          | nil => simp at h
          | cons e rest =>
            simp only at h
            split at h
            · simp only [Option.map_eq_some', Prod.mk.injEq] at h
              obtain ⟨⟨l1, r1⟩, h1, _, h3⟩ := h
              have := ih _ _ _ h1
              simp only at h3
              subst h3
              simp only [List.length_cons]
              omega
            · split at h
              · split at h
                · simp only [Option.map_eq_some', Prod.mk.injEq] at h
                  obtain ⟨⟨l1, r1⟩, h1, _, h3⟩ := h
                  have := ih _ _ _ h1
                  simp only at h3
                  subst h3
                  simp only [List.length_cons, List.length_drop] at this ⊢
                  omega
                · simp at h
              · simp at h
        · split at h
          · simp at h
          · simp only [Option.map_eq_some', Prod.mk.injEq] at h
            obtain ⟨⟨l1, r1⟩, h1, _, h3⟩ := h
            have := ih _ _ _ h1
            simp only at h3
            subst h3
            simp only [List.length_cons]
            omega

theorem scanString_fuel (f : Nat) : ∀ (s : Str), s.length < f →
    scanString (f + 1) s = scanString f s := by
  induction f with
  | zero => intro s h; omega
  | succ f ih =>
    intro s h
    conv => lhs; unfold scanString
    conv => rhs; unfold scanString
    cases s with
    | nil => rfl
    | cons c cs =>
      simp only [List.length_cons] at h
      simp only
      split
      · rfl
      · split
        · cases cs with
          | nil => rfl
          | cons e rest =>
            simp only [List.length_cons] at h
            simp only
            split
            · rw [ih rest (by omega)]
            · split
              · split
                · rw [ih (rest.drop 4) (by simp only [List.length_drop]; omega)]
                · rfl
              · rfl
        · split
          · rfl
          · rw [ih cs (by omega)]

theorem scan_length (f : Nat) :
    (∀ dp s v r, scanValue f dp s = some (v, r) → r.length ≤ s.length) ∧
    (∀ dp s ms r, scanMembers f dp s = some (ms, r) → r.length ≤ s.length) ∧
    (∀ dp s es r, scanElems f dp s = some (es, r) → r.length ≤ s.length) := by
  induction f with
  | zero =>
    refine ⟨?_, ?_, ?_⟩
    · intro dp s v r h; simp [scanValue] at h
    · intro dp s v r h; simp [scanMembers] at h
    · intro dp s v r h; simp [scanElems] at h
  | succ f ih =>
    obtain ⟨ihV, ihM, ihE⟩ := ih
    refine ⟨?_, ?_, ?_⟩
    · intro dp s v r h
      unfold scanValue at h
      cases s with
      | nil => simp at h
      | cons c cs =>
        simp only [List.length_cons] at h ⊢
        split at h
        · split at h
          · simp at h
          · split at h
            · simp at h
            · rename_i d ds hsk
              have hl := skipSpace_length cs
              rw [hsk, List.length_cons] at hl
              split at h
              · simp only [Option.some.injEq, Prod.mk.injEq] at h
                rw [← h.2]; omega
              · simp only [Option.map_eq_some', Prod.mk.injEq] at h
                obtain ⟨⟨l1, r1⟩, h1, _, h3⟩ := h
                have := ihM _ _ _ _ h1
                simp only at h3
                subst h3
                simp only [List.length_cons] at this
                omega
        · split at h
          · split at h
            · simp at h
            · split at h
              · simp at h
              · rename_i d ds hsk
                have hl := skipSpace_length cs
                rw [hsk, List.length_cons] at hl
                split at h
                · simp only [Option.some.injEq, Prod.mk.injEq] at h
                  rw [← h.2]; omega
                · simp only [Option.map_eq_some', Prod.mk.injEq] at h
                  obtain ⟨⟨l1, r1⟩, h1, _, h3⟩ := h
                  have := ihE _ _ _ _ h1
                  simp only at h3
                  subst h3
                  simp only [List.length_cons] at this
                  omega
          · split at h
            · simp only [Option.map_eq_some', Prod.mk.injEq] at h
              obtain ⟨⟨l1, r1⟩, h1, _, h3⟩ := h
              have := scanString_length _ _ _ _ h1
              simp only at h3
              subst h3
              omega
            · split at h
              · simp only [Option.map_eq_some', Prod.mk.injEq] at h
                obtain ⟨r1, h1, _, h3⟩ := h
                have := scanWord_length _ _ _ h1
                subst h3
                simpa using this
              · split at h
                · simp only [Option.map_eq_some', Prod.mk.injEq] at h
                  obtain ⟨r1, h1, _, h3⟩ := h
                  have := scanWord_length _ _ _ h1
                  subst h3
                  simpa using this
                · split at h
                  · simp only [Option.map_eq_some', Prod.mk.injEq] at h
                    obtain ⟨r1, h1, _, h3⟩ := h
                    have := scanWord_length _ _ _ h1
                    subst h3
                    simpa using this
                  · simp only [Option.map_eq_some', Prod.mk.injEq] at h
                    obtain ⟨⟨l1, r1⟩, h1, _, h3⟩ := h
                    have := scanNumber_length _ _ _ h1
                    simp only at h3
                    subst h3
                    simpa using this
    · intro dp s ms r h
      unfold scanMembers at h
      cases s with
      | nil => simp at h
      | cons q afterQuote =>
        simp only [List.length_cons] at h ⊢
        split at h
        · split at h
          · simp at h
          · rename_i key r1 hkey
            have hk := scanString_length _ _ _ _ hkey
            split at h
            · simp at h
            · rename_i colon r2 hcol
              have hc := skipSpace_length r1
              rw [hcol, List.length_cons] at hc
              split at h
              · split at h
                · simp at h
                · rename_i v r3 hv
                  have hv1 := ihV _ _ _ _ hv
                  have hv2 := skipSpace_length r2
                  split at h
                  · simp at h
                  · rename_i sep r4 hsep
                    have hs := skipSpace_length r3
                    rw [hsep, List.length_cons] at hs
                    split at h
                    · simp only [Option.map_eq_some', Prod.mk.injEq] at h
                      obtain ⟨⟨l1, rr⟩, h1, _, h3⟩ := h
                      have h4 := ihM _ _ _ _ h1
                      have h5 := skipSpace_length r4
                      simp only at h3
                      subst h3
                      omega
                    · split at h
                      · simp only [Option.some.injEq, Prod.mk.injEq] at h
                        rw [← h.2]; omega
                      · simp at h
              · simp at h
        · simp at h
    · intro dp s es r h
      unfold scanElems at h
      split at h
      · simp at h
      · rename_i v r1 hv
        have hv1 := ihV _ _ _ _ hv
        split at h
        · simp at h
        · rename_i sep r2 hsep
          have hs := skipSpace_length r1
          rw [hsep, List.length_cons] at hs
          split at h
          · simp only [Option.map_eq_some', Prod.mk.injEq] at h
            obtain ⟨⟨l1, rr⟩, h1, _, h3⟩ := h
            have h4 := ihE _ _ _ _ h1
            have h5 := skipSpace_length r2
            simp only at h3
            subst h3
            omega
          · split at h
            · simp only [Option.some.injEq, Prod.mk.injEq] at h
              rw [← h.2]; omega
            · simp at h


theorem scan_fuel (f : Nat) :
    (∀ dp s, 2 * s.length + 1 ≤ f → scanValue (f + 1) dp s = scanValue f dp s) ∧
    (∀ dp s, 2 * s.length + 2 ≤ f → scanMembers (f + 1) dp s = scanMembers f dp s) ∧
    (∀ dp s, 2 * s.length + 2 ≤ f → scanElems (f + 1) dp s = scanElems f dp s) := by
  induction f with
  | zero =>
    refine ⟨?_, ?_, ?_⟩ <;> intro dp s h <;> omega
  | succ f ih =>
    obtain ⟨ihV, ihM, ihE⟩ := ih
    refine ⟨?_, ?_, ?_⟩
    · intro dp s h
      conv => lhs; unfold scanValue
      conv => rhs; unfold scanValue
      cases s with
      | nil => rfl
      | cons c cs =>
        simp only [List.length_cons] at h
        simp only
        split
        · split
          · rfl
          · split
            · rfl
            · rename_i d ds hsk
              have hl := skipSpace_length cs
              rw [hsk, List.length_cons] at hl
              split
              · rfl
              · rw [ihM (dp + 1) (d :: ds) (by simp only [List.length_cons]; omega)]
        · split
          · split
            · rfl
            · split
              · rfl
              · rename_i d ds hsk
                have hl := skipSpace_length cs
                rw [hsk, List.length_cons] at hl
                split
                · rfl
                · rw [ihE (dp + 1) (d :: ds) (by simp only [List.length_cons]; omega)]
          · split
            · rw [scanString_fuel f cs (by omega)]
            · rfl
    · intro dp s h
      conv => lhs; unfold scanMembers
      conv => rhs; unfold scanMembers
      cases s with
      | nil => rfl
      | cons q afterQuote =>
        simp only [List.length_cons] at h
        simp only
        split
        · rw [scanString_fuel f afterQuote (by omega)]
          split
          · rfl
          · rename_i key r1 hkey
            have hk := scanString_length _ _ _ _ hkey
            split
            · rfl
            · rename_i colon r2 hcol
              have hc := skipSpace_length r1
              rw [hcol, List.length_cons] at hc
              split
              · have hv2 := skipSpace_length r2
                rw [ihV dp (skipSpace r2) (by omega)]
                split
                · rfl
                · rename_i v r3 hv
                  have hv1 := (scan_length f).1 _ _ _ _ hv
                  split
                  · rfl
                  · rename_i sep r4 hsep
                    have hs := skipSpace_length r3
                    rw [hsep, List.length_cons] at hs
                    have h5 := skipSpace_length r4
                    split
                    · rw [ihM dp (skipSpace r4) (by omega)]
                    · rfl
              · rfl
        · rfl
    · intro dp s h
      conv => lhs; unfold scanElems
      conv => rhs; unfold scanElems
      rw [ihV dp s (by omega)]
      split
      · rfl
      · rename_i v r1 hv
        have hv1 := (scan_length f).1 _ _ _ _ hv
        split
        · rfl
        · rename_i sep r2 hsep
          have hs := skipSpace_length r1
          rw [hsep, List.length_cons] at hs
          have h5 := skipSpace_length r2
          split
          · rw [ihE dp (skipSpace r2) (by omega)]
          · rfl

/-- More fuel than twice the length of the text changes nothing in the result
of the scanner. -/
theorem scanValue_fuel (dp : Nat) (s : Str) (f : Nat) (h : 2 * s.length + 1 ≤ f) :
    scanValue f dp s = scanValue (2 * s.length + 1) dp s := by
  induction f with
  | zero => omega
  | succ f ih =>
    by_cases hf : 2 * s.length + 1 ≤ f
    · rw [(scan_fuel f).1 dp s hf, ih hf]
    · have : f + 1 = 2 * s.length + 1 := by omega
      rw [this]

/-- The fuel that `parse` gives the scanner is enough: more changes nothing. -/
theorem parse_fuel (data : Str) (f : Nat) (h : 2 * data.length + 2 ≤ f) :
    scanValue f 0 (skipSpace data) = scanValue (2 * data.length + 2) 0 (skipSpace data) := by
  have hl := skipSpace_length data
  rw [scanValue_fuel 0 (skipSpace data) f (by omega),
    scanValue_fuel 0 (skipSpace data) (2 * data.length + 2) (by omega)]

theorem unquoteLoop_fuel (f : Nat) : ∀ (s : Str), s.length ≤ f →
    unquoteLoop (f + 1) s = unquoteLoop f s := by
  induction f with
  | zero =>
    intro s h
    have : s = [] := List.length_eq_zero.mp (by omega)
    subst this
    rfl
  | succ f ih =>
    intro s h
    conv => lhs; unfold unquoteLoop
    conv => rhs; unfold unquoteLoop
    cases s with
    | nil => rfl
    | cons c cs =>
      simp only [List.length_cons] at h
      simp only
      split
      · cases cs with
        | nil => rfl
        | cons e rest =>
          simp only [List.length_cons] at h
          simp only
          split
          · split
            · rfl
            · split
              · split
                · rw [ih _ (by simp only [List.length_drop, List.length_cons]; omega)]
                · rw [ih _ (by simp only [List.length_drop, List.length_cons]; omega)]
              · rw [ih _ (by simp only [List.length_drop, List.length_cons]; omega)]
          · rw [ih rest (by omega)]
      · rw [ih cs (by omega)]

/-- More fuel than the length of the literal changes nothing in `unquote`. -/
theorem unquote_fuel (s : Str) (f : Nat) (h : s.length ≤ f) :
    unquoteLoop f s = unquote s := by
  unfold unquote
  induction f with
  | zero =>
    have : s.length = 0 := by omega
    rw [this]
  | succ f ih =>
    by_cases hf : s.length ≤ f
    · rw [unquoteLoop_fuel f s hf, ih hf]
    · have : f + 1 = s.length := by omega
      rw [this]

/-- An opening brace or bracket met with `maxNestingDepth` objects and arrays
already open is a syntax error, whatever follows it. -/
theorem scanValue_max_depth (f dp : Nat) (c : Char) (cs : Str)
    (hdp : maxNestingDepth ≤ dp) (hc : c.toNat = 123 ∨ c.toNat = 91) :
    scanValue f dp (c :: cs) = none := by
  have hlt : maxNestingDepth < dp + 1 := by omega
  cases f with
  | zero => rfl
  | succ f =>
    unfold scanValue
    simp only
    rcases hc with hc | hc
    · rw [if_pos hc, if_pos hlt]
    · rw [if_neg (by omega), if_pos hc, if_pos hlt]

end json

/-! ## C11, C12: the empty list, the cancellation -/

theorem Menu_enter_shown (env : Env) (m : Messages) (stdin : List ReadResult) (loop : MenuRun)
    (hN : 1 ≤ m.length) (h : (Messages.rows env 0 m).2 = true) :
    Messages.Menu.enter env m stdin loop =
      ⟨(Messages.rows env 0 m).1 ++ loop.events, loop.result, loop.rest⟩ := by
  unfold Messages.Menu.enter
  have h0 : ¬ m.length = 0 := by omega
  simp only [h0, if_false]
  rcases hp : Messages.rows env 0 m with ⟨rows, b⟩
  rw [hp] at h
  simp only at h
  subst h
  rfl

theorem Menu_shown_of_read (env : Env) (m : Messages) (r : ReadResult) (rest : List ReadResult)
    (hN : 1 ≤ m.length) (hread : (Messages.Menu env m (r :: rest)).rest = rest) :
    (Messages.rows env 0 m).2 = true := by
  unfold Messages.Menu Messages.Menu.enter at hread
  have h0 : ¬ m.length = 0 := by omega
  simp only [h0, if_false] at hread
  rcases hp : Messages.rows env 0 m with ⟨rows, b⟩
  rw [hp] at hread
  cases b
  · simp only at hread
    have hl := congrArg List.length hread
    simp only [List.length_cons] at hl
    omega
  · rfl

theorem Menu_loop_zero (env : Env) (m : Messages) (r : ReadResult) (rest : List ReadResult)
    (hr : r.err = false) (h0 : strings.TrimSpace r.text = "0".toList) :
    Messages.Menu.loop env m (r :: rest) =
      ⟨[.stdout (Messages.prompt m)], .returned Message.empty none, rest⟩ := by
  have hp : strconv.ParseUint (strings.TrimSpace r.text) = (0, none) := by
    rw [h0]; decide
  rw [Messages.Menu.loop]
  simp only [hr, hp]
  rfl

theorem rows_not_run (env : Env) (m : Messages) (k : Nat) :
    (Messages.rows env k m).1.filter Event.isRun = [] := by
  induction m generalizing k with
  | nil => rfl
  | cons msg rest ih =>
    rw [Messages.rows]
    cases msg.Recipients with
    | nil => rfl
    | cons r rs =>
      simp only [List.filter_cons, Event.isRun]
      exact ih (k + 1)

/-- C11. `Messages.Menu` on the empty list returns at once the error
`There are no messages to choose from.` (with the empty `Message`): no event
is emitted, so no row and no prompt is printed, and the input is left as it
was, so no line is read. -/
theorem C11_menu_empty_list (env : Env) (stdin : List ReadResult) :
    Messages.Menu env [] stdin = ⟨[], .returned Message.empty (some .noMessages), stdin⟩ := by
  rfl

/-- C12. For a snapshot of at least one message, when the line read at
message selection is `0` (the menu takes this line from the input, and its
trimmed text is `0`), the pass prints nothing after the rows and the prompt of
the message menu, no reasons and no action menu, runs no command, and ends the
process with `os.Exit(0)`. -/
theorem C12_cancel_exits_zero (env : Env) (postsuper postcat : Str) (n : Nat)
    (msgs : Messages) (r : ReadResult) (rest : List ReadResult) (hN : 1 ≤ msgs.length)
    (hr : r.err = false) (h0 : strings.TrimSpace r.text = "0".toList)
    (hread : (Messages.Menu env msgs (r :: rest)).rest = rest) :
    main.select env postsuper postcat n msgs (r :: rest) =
      ⟨(Messages.rows env 0 msgs).1 ++ [.stdout (Messages.prompt msgs)],
        .stop (.exit 0), rest⟩ ∧
    (main.select env postsuper postcat n msgs (r :: rest)).events.filter Event.isRun = [] ∧
    ∀ ev, fetchQueue env n = (ev, .ok msgs) →
      main.pass env postsuper postcat n (r :: rest) =
        ⟨ev ++ ((Messages.rows env 0 msgs).1 ++ [.stdout (Messages.prompt msgs)]),
          .stop (.exit 0), rest⟩ := by
  have hshown := Menu_shown_of_read env msgs r rest hN hread
  have hm : Messages.Menu env msgs (r :: rest) =
      ⟨(Messages.rows env 0 msgs).1 ++ [.stdout (Messages.prompt msgs)],
        .returned Message.empty none, rest⟩ := by
    unfold Messages.Menu
    rw [Menu_enter_shown env msgs _ _ hN hshown, Menu_loop_zero env msgs r rest hr h0]
  have hs : main.select env postsuper postcat n msgs (r :: rest) =
      ⟨(Messages.rows env 0 msgs).1 ++ [.stdout (Messages.prompt msgs)],
        .stop (.exit 0), rest⟩ := by
    unfold main.select
    rw [hm]
    rfl
  refine ⟨hs, ?_, ?_⟩
  · rw [hs]
    simp only [List.filter_append, rows_not_run]
    rfl
  · intro ev hf
    unfold main.pass
    rw [hf]
    simp only [hs]

/-- The statement of C12 on the listing of two records. -/
theorem C12_cancel_exits_zero_witness :
    main.select (Env.sample []) [] [] 0 [Message.sample, Message.sample]
        [ReadResult.line "0", ReadResult.line "1"] =
      ⟨(Messages.rows (Env.sample []) 0 [Message.sample, Message.sample]).1 ++
          [.stdout (Messages.prompt [Message.sample, Message.sample])],
        .stop (.exit 0), [ReadResult.line "1"]⟩ :=
  (C12_cancel_exits_zero (Env.sample []) [] [] 0 [Message.sample, Message.sample]
    (ReadResult.line "0") [ReadResult.line "1"] (by decide) rfl (by decide) (by decide)).1

/-! ## C13: the unset sentinel -/

theorem zero_UnixNano : time.Time.zero.UnixNano = -6795364578871345152 := by decide

theorem Unix_UnixNano (t : Nat) :
    (time.Unix (t : Int) 0).UnixNano = wrapInt64 ((t : Int) * 1000000000) := by
  rw [Unix_seconds]
  unfold time.Time.UnixNano time.Time.Unix time.Time.sec time.Time.nsec
  rw [unixToInternal_eq]
  have h1 : ¬ ((0 : Nat) / 2 ^ 63 % 2 = 1) := by decide
  rw [if_neg h1]
  have h2 : (((0 : Nat) % 2 ^ 30 : Nat) : Int) = 0 := by decide
  rw [h2]
  unfold wrapInt64
  dsimp only
  omega

theorem dvd_of_collision (x : Nat) (h : (x * 1000000000) % 2 ^ 64 = 0) : x % 2 ^ 55 = 0 := by
  have h1 : 2 ^ 64 ∣ x * 1000000000 := Nat.dvd_of_mod_eq_zero h
  have h2 : (2 : Nat) ^ 64 = 2 ^ 55 * 2 ^ 9 := by norm_num
  have h3 : x * 1000000000 = (x * 5 ^ 9) * 2 ^ 9 := by ring
  rw [h2, h3] at h1
  have h4 : 2 ^ 55 ∣ x * 5 ^ 9 := Nat.dvd_of_mul_dvd_mul_right (by norm_num) h1
  have hc : Nat.Coprime (2 ^ 55) (5 ^ 9) := by
    apply Nat.Coprime.pow
    decide
  exact Nat.mod_eq_zero_of_dvd (hc.dvd_of_dvd_mul_right h4)

theorem collision_mod (t : Nat)
    (heq : wrapInt64 ((t : Int) * 1000000000) = -6795364578871345152) :
    (t + 62135596800) % 2 ^ 55 = 0 := by
  unfold wrapInt64 at heq
  have h1 : ((t : Int) * 1000000000 + 2 ^ 63) % 2 ^ 64 = 2428007457983430656 := by
    linarith
  have h2 : (((t : Int) + 62135596800) * 1000000000) % 2 ^ 64 = 0 := by
    have he : ((t : Int) + 62135596800) * 1000000000 =
        ((t : Int) * 1000000000 + 2 ^ 63) + 52912224763145224192 := by ring
    rw [he, Int.add_emod, h1]
    norm_num
  have h3 : ((2 ^ 64 : Nat) : Int) ∣ (((t + 62135596800) * 1000000000 : Nat) : Int) := by
    push_cast
    exact Int.dvd_of_emod_eq_zero h2
  have h4 : 2 ^ 64 ∣ (t + 62135596800) * 1000000000 := Int.natCast_dvd_natCast.mp h3
  exact dvd_of_collision _ (Nat.mod_eq_zero_of_dvd h4)

theorem IsSet_of_no_collision (t : Nat) (hne : (t + 62135596800) % 2 ^ 55 ≠ 0) :
    UnixTime.IsSet ⟨time.Unix (t : Int) 0⟩ = true := by
  have hw : wrapInt64 ((t : Int) * 1000000000) ≠ -6795364578871345152 :=
    fun heq => hne (collision_mod t heq)
  unfold UnixTime.IsSet
  dsimp only
  rw [Unix_UnixNano t, zero_UnixNano, decide_eq_true_eq]
  exact hw

theorem UnmarshalJSON_null (ut0 : UnixTime) :
    UnixTime.UnmarshalJSON ut0 "null".toList = .ok ⟨time.Time.zero⟩ := by
  unfold UnixTime.UnmarshalJSON
  have : strings.Trim "null".toList [Char.ofNat 34] = "null".toList := by decide
  rw [this]
  rfl

/-- C13 (code defect). `UnixTime.IsSet` compares `UnixNano()` of the value
with `UnixNano()` of the zero time, both computed in `int64`. For the
timestamp `36028734883367168` (that is `2^55 - 62135596800`) the product with
`10^9` wraps around to the very count of the zero time: the value decoded
from this numeral is reported as not set, like the value decoded from `null`.
For every `t < 2^63` with `t + 62135596800` not a multiple of `2^55`, the
epoch start `t = 0` among them, the decoded value is reported as set. -/
theorem C13_isset_collides_with_zero (ut0 : UnixTime) (t : Nat) (ht : t < 2 ^ 63)
    (hne : (t + 62135596800) % 2 ^ 55 ≠ 0) :
    UnixTime.UnmarshalJSON ut0 (quoted "36028734883367168".toList) =
      .ok ⟨time.Unix 36028734883367168 0⟩ ∧
    UnixTime.IsSet ⟨time.Unix 36028734883367168 0⟩ = false ∧
    UnixTime.UnmarshalJSON ut0 "null".toList = .ok ⟨time.Time.zero⟩ ∧
    UnixTime.IsSet ⟨time.Time.zero⟩ = false ∧
    UnixTime.UnmarshalJSON ut0 (quoted (strconv.FormatUint t)) = .ok ⟨time.Unix (t : Int) 0⟩ ∧
    UnixTime.IsSet ⟨time.Unix (t : Int) 0⟩ = true := by
  refine ⟨?_, by decide, UnmarshalJSON_null ut0, by decide, UnmarshalJSON_quoted ut0 t ht,
    IsSet_of_no_collision t hne⟩
  have h := UnmarshalJSON_quoted ut0 36028734883367168 (by norm_num)
  have hf : strconv.FormatUint 36028734883367168 = "36028734883367168".toList := by decide
  rw [hf] at h
  exact h

/-- The statement of C13 at the epoch start, `t = 0`. -/
theorem C13_isset_collides_with_zero_witness :
    UnixTime.UnmarshalJSON ⟨time.Time.zero⟩ (quoted "0".toList) = .ok ⟨time.Unix 0 0⟩ ∧
    UnixTime.IsSet ⟨time.Unix 0 0⟩ = true ∧
    UnixTime.IsSet ⟨time.Unix 36028734883367168 0⟩ = false :=
  have h := C13_isset_collides_with_zero ⟨time.Time.zero⟩ 0 (by decide) (by decide)
  ⟨h.2.2.2.2.1, h.2.2.2.2.2, h.2.1⟩

/-! ## C14: messages without recipients -/

theorem rows_panic (env : Env) (m : Messages) (k : Nat)
    (h : ∃ msg ∈ m, msg.Recipients = []) : (Messages.rows env k m).2 = false := by
  induction m generalizing k with
  | nil =>
    obtain ⟨msg, hm, _⟩ := h
    cases hm
  | cons msg rest ih =>
    rw [Messages.rows]
    cases hr : msg.Recipients with
    | nil => rfl
    | cons r rs =>
      simp only
      apply ih
      obtain ⟨x, hx, hx0⟩ := h
      rcases List.mem_cons.mp hx with rfl | hx
      · rw [hr] at hx0
        cases hx0
      · exact ⟨x, hx, hx0⟩

theorem Menu_panic (env : Env) (m : Messages) (stdin : List ReadResult)
    (h : ∃ msg ∈ m, msg.Recipients = []) :
    Messages.Menu env m stdin = ⟨(Messages.rows env 0 m).1, .panic, stdin⟩ := by
  have hf := rows_panic env m 0 h
  have hne : ¬ m.length = 0 := by
    obtain ⟨msg, hm, _⟩ := h
    intro h0
    rw [List.length_eq_zero.mp h0] at hm
    cases hm
  unfold Messages.Menu Messages.Menu.enter
  simp only [hne, if_false]
  rcases hp : Messages.rows env 0 m with ⟨rows, b⟩
  rw [hp] at hf
  simp only at hf
  subst hf
  rfl

set_option maxRecDepth 100000 in
/-- C14 (code defect). The decoder does not check the recipients: the record
`Sample.noRecipients`, which has every key of the listing and `[]` for
`recipients`, decodes without error to a message with no recipient. On any
list with such a message `Messages.Menu` panics while printing the rows
(`msg.Recipients[0]` is out of range), before any prompt and without reading
input; a session on this listing ends in that panic. -/
theorem C14_message_without_recipient :
    fetchQueue.decode Sample.noRecipients =
      .ok [⟨"hold".toList, "ABC123".toList, ⟨time.Time.zero⟩, 12, "s@x.com".toList, []⟩] ∧
    main (Env.sample Sample.noRecipients) 1 [ReadResult.line "1"] =
      ([.run "/usr/sbin/postqueue".toList ["-j".toList]], .panic) ∧
    ∀ (env : Env) (m : Messages) (stdin : List ReadResult),
      (∃ msg ∈ m, msg.Recipients = []) →
        Messages.Menu env m stdin = ⟨(Messages.rows env 0 m).1, .panic, stdin⟩ :=
  ⟨by decide, by decide, Menu_panic⟩

/-! ## C15: blank lines -/

set_option maxRecDepth 100000 in
/-- C15, counterexample. The two records `Sample.record` and `Sample.second`
decode, each on its own; with a blank line between them the decoding in
`fetchQueue` does not yield the two messages but ends in `log.Fatal`, with the
syntax error of `json.Unmarshal` on the empty line. -/
theorem C15_counterexample_blank_line :
    fetchQueue.decodes Sample.record = true ∧
    fetchQueue.decodes Sample.second = true ∧
    fetchQueue.decode (Sample.record ++ [Char.ofNat 10, Char.ofNat 10] ++ Sample.second) =
      .error .jsonSyntax := by
  decide

/-- C15, amended. For a blob with records, that is one whose trimmed text is
not empty, the decoding in `fetchQueue` gives every line of the trimmed text
to `json.Unmarshal`, the empty ones too: an empty line does not decode, and a
blob with a blank line between its records ends in `log.Fatal` and yields no
messages. -/
theorem C15_blank_line_fatal (raw : Str)
    (hne : strings.TrimSpace raw ≠ [])
    (h : [] ∈ strings.SplitLines (strings.TrimSpace raw)) :
    fetchQueue.decodes [] = false ∧
    fetchQueue.decode raw = fetchQueue.loop (strings.SplitLines (strings.TrimSpace raw)) [] ∧
    ∃ e, fetchQueue.decode raw = .error e :=
  ⟨rfl, rfl, fetchQueue_loop_error _ [] [] h (decodes_false [] rfl)⟩

set_option maxRecDepth 100000 in
/-- The statement of C15 on two records with a blank line between them. -/
theorem C15_blank_line_fatal_witness :
    ∃ e, fetchQueue.decode (Sample.record ++ [Char.ofNat 10, Char.ofNat 10] ++ Sample.second) =
      .error e :=
  (C15_blank_line_fatal (Sample.record ++ [Char.ofNat 10, Char.ofNat 10] ++ Sample.second)
    (by decide) (by decide)).2.2

/-! ## C16: rejected input at message selection -/

theorem Menu_loop_rejected (env : Env) (m : Messages) (r : ReadResult) (rest : List ReadResult)
    (h : r.err = true ∨ (strconv.ParseUint (strings.TrimSpace r.text)).2 ≠ none) :
    Messages.Menu.loop env m (r :: rest) =
      ⟨.stdout (Messages.prompt m) :: (Messages.Menu env m rest).events,
        (Messages.Menu env m rest).result, (Messages.Menu env m rest).rest⟩ := by
  rw [Messages.Menu.loop]
  by_cases he : r.err = true
  · simp only [he, if_true]
    rfl
  · simp only [he]
    rcases h with h | h
    · exact absurd h he
    · rcases hp : strconv.ParseUint (strings.TrimSpace r.text) with ⟨v, _ | e⟩
      · rw [hp] at h
        exact absurd rfl h
      · rfl

theorem ParseUint_too_large (s : Str) (h : 2 ^ 64 ≤ Spec.numeralValue s) :
    (strconv.ParseUint s).2 ≠ none := by
  intro hn
  have hp : strconv.ParseUint s = ((strconv.ParseUint s).1, none) := Prod.ext rfl hn
  obtain ⟨_, h2, h3⟩ := strconv.ParseUint_ok s _ hp
  rw [h2] at h3
  unfold Spec.numeralValue at h
  omega

theorem ParseUint_not_numeral_err (s : Str) (h : Spec.isNumeral s = false) :
    (strconv.ParseUint s).2 ≠ none := by
  obtain ⟨v, e, hp⟩ := strconv.ParseUint_not_numeral s h
  rw [hp]
  simp

set_option maxRecDepth 100000 in
/-- C16, counterexample. On a list of one message the line `2`, a number
above `N = 1`, is rejected without a restart: after it the prompt is printed
again, but the numbered list is not, it was printed once only. -/
theorem C16_counterexample_no_restart :
    Messages.Menu (Env.sample []) [Message.sample] [ReadResult.line "2"] =
      ⟨(Messages.rows (Env.sample []) 0 [Message.sample]).1 ++
          [.stdout (Messages.prompt [Message.sample]),
           .stdout (Messages.prompt [Message.sample])],
        .blocked, []⟩ ∧
    (Messages.rows (Env.sample []) 0 [Message.sample]).1.length = 1 ∧
    (Messages.Menu (Env.sample []) [Message.sample] [ReadResult.line "2"]).events ≠
      (Messages.rows (Env.sample []) 0 [Message.sample]).1 ++
        [.stdout (Messages.prompt [Message.sample])] ++
        (Messages.rows (Env.sample []) 0 [Message.sample]).1 ++
        [.stdout (Messages.prompt [Message.sample])] := by
  decide

/-- C16, amended. In message selection (the list has been rendered and the
menu is reading), an input that cannot be read or that `strconv.ParseUint`
rejects (a text that is not a numeral, a negative number among them, or a
numeral of `2^64` or more) restarts the menu: the whole list is rendered
again, then the prompt, and the menu goes on with the rest of the input. A
numeral greater than `N` and below `2^64` does not restart it: the prompt alone
is printed again, and the loop goes on with the rest of the input. -/
theorem C16_rejected_input (env : Env) (m : Messages) (r : ReadResult)
    (rest : List ReadResult) (hN : 1 ≤ m.length) (hlen : m.length < 2 ^ 63)
    (hshown : (Messages.rows env 0 m).2 = true) :
    (r.err = true ∨ Spec.isNumeral (strings.TrimSpace r.text) = false ∨
        2 ^ 64 ≤ Spec.numeralValue (strings.TrimSpace r.text) →
      Messages.Menu env m (r :: rest) =
        ⟨(Messages.rows env 0 m).1 ++ .stdout (Messages.prompt m) ::
            ((Messages.rows env 0 m).1 ++ (Messages.Menu.loop env m rest).events),
          (Messages.Menu.loop env m rest).result, (Messages.Menu.loop env m rest).rest⟩) ∧
    (r.err = false ∧ Spec.isNumeral (strings.TrimSpace r.text) = true ∧
        m.length < Spec.numeralValue (strings.TrimSpace r.text) ∧
        Spec.numeralValue (strings.TrimSpace r.text) < 2 ^ 64 →
      Messages.Menu env m (r :: rest) =
        ⟨(Messages.rows env 0 m).1 ++ .stdout (Messages.prompt m) ::
            (Messages.Menu.loop env m rest).events,
          (Messages.Menu.loop env m rest).result, (Messages.Menu.loop env m rest).rest⟩) ∧
    ∃ evs, (Messages.Menu.loop env m rest).events = .stdout (Messages.prompt m) :: evs := by
  have hlen64 : m.length < 2 ^ 64 := lt_trans hlen (by norm_num)
  have hmenu : ∀ stdin, Messages.Menu env m stdin =
      ⟨(Messages.rows env 0 m).1 ++ (Messages.Menu.loop env m stdin).events,
        (Messages.Menu.loop env m stdin).result, (Messages.Menu.loop env m stdin).rest⟩ :=
    fun stdin => Menu_enter_shown env m stdin _ hN hshown
  refine ⟨?_, ?_, Menu_loop_head env m rest⟩
  · intro h
    have hrej : r.err = true ∨ (strconv.ParseUint (strings.TrimSpace r.text)).2 ≠ none := by
      rcases h with h | h | h
      · exact Or.inl h
      · exact Or.inr (ParseUint_not_numeral_err _ h)
      · exact Or.inr (ParseUint_too_large _ h)
    rw [hmenu (r :: rest), Menu_loop_rejected env m r rest hrej, hmenu rest]
  · rintro ⟨hr, hnum, hgt, hlt⟩
    have hp := strconv.ParseUint_numeral _ hnum hlt
    rw [hmenu (r :: rest), Menu_loop_number env m r rest _ hr hp hlen64]
    unfold Spec.numeralValue at hgt
    have h1 : ¬ (0 < strconv.decimalFold 0 (strings.TrimSpace r.text) ∧
        strconv.decimalFold 0 (strings.TrimSpace r.text) ≤ m.length) := by omega
    have h2 : ¬ strconv.decimalFold 0 (strings.TrimSpace r.text) = 0 := by omega
    rw [if_neg h1, if_neg h2]

/-- The statement of C16 on a list of one message: the line `x` restarts the
menu, the line `2` does not. -/
theorem C16_rejected_input_witness :
    (Messages.Menu (Env.sample []) [Message.sample] [ReadResult.line "x"]).events =
      (Messages.rows (Env.sample []) 0 [Message.sample]).1 ++
        .stdout (Messages.prompt [Message.sample]) ::
          ((Messages.rows (Env.sample []) 0 [Message.sample]).1 ++
            [.stdout (Messages.prompt [Message.sample])]) ∧
    (Messages.Menu (Env.sample []) [Message.sample] [ReadResult.line "2"]).events =
      (Messages.rows (Env.sample []) 0 [Message.sample]).1 ++
        .stdout (Messages.prompt [Message.sample]) ::
          [.stdout (Messages.prompt [Message.sample])] := by
  have h := C16_rejected_input (Env.sample []) [Message.sample] (ReadResult.line "x") []
    (by decide) (by decide) (by decide)
  have h2 := C16_rejected_input (Env.sample []) [Message.sample] (ReadResult.line "2") []
    (by decide) (by decide) (by decide)
  refine ⟨?_, ?_⟩
  · rw [h.1 (by decide)]
    rfl
  · rw [h2.2.1 (by decide)]
    rfl

/-! ## C17: the rows of the message menu -/

theorem FormatInt_succ (k : Nat) : strconv.FormatInt ((k : Int) + 1) = strconv.FormatUint (k + 1) := by
  unfold strconv.FormatInt
  have h : ¬ ((k : Int) + 1 < 0) := by omega
  have hn : ((k : Int) + 1).natAbs = k + 1 := by omega
  rw [if_neg h, hn]

theorem rows_length (env : Env) (m : Messages) (j : Nat)
    (hrec : ∀ msg ∈ m, msg.Recipients ≠ []) : (Messages.rows env j m).1.length = m.length := by
  induction m generalizing j with
  | nil => rfl
  | cons msg rest ih =>
    rw [Messages.rows]
    cases hr : msg.Recipients with
    | nil => exact absurd hr (hrec msg (List.mem_cons_self _ _))
    | cons r rs =>
      simp only [List.length_cons]
      rw [ih (j + 1) (fun x hx => hrec x (List.mem_cons_of_mem _ hx))]

theorem rows_get (env : Env) (m : Messages) (j k : Nat) (hk : k < m.length)
    (hrec : ∀ msg ∈ m, msg.Recipients ≠ []) :
    ∃ r rs, m[k].Recipients = r :: rs ∧
      (Messages.rows env j m).1[k]? = some (.stdout (Messages.row env (j + k) m[k] r)) := by
  induction m generalizing j k with
  | nil => simp at hk
  | cons msg rest ih =>
    rw [Messages.rows]
    cases hr : msg.Recipients with
    | nil => exact absurd hr (hrec msg (List.mem_cons_self _ _))
    | cons r rs =>
      cases k with
      | zero =>
        refine ⟨r, rs, ?_, ?_⟩
        · simpa using hr
        · simp
      | succ k =>
        simp only [List.length_cons, Nat.add_lt_add_iff_right] at hk
        obtain ⟨r1, rs1, h1, h2⟩ :=
          ih (j + 1) k hk (fun x hx => hrec x (List.mem_cons_of_mem _ hx))
        refine ⟨r1, rs1, ?_, ?_⟩
        · simpa using h1
        · simp only [List.getElem?_cons_succ, List.getElem_cons_succ]
          rw [h2, show j + 1 + k = j + (k + 1) by omega]

/-- C17. For a nonempty list of messages, each with a recipient,
`Messages.Menu` first prints one row per message, in the order of the list.
The row of the message at index `k` is the ordinal `k+1` in decimal, padded
with spaces on the left to width 4, two spaces, the queue id followed at once
by the glyph of `QueueChar`, two spaces, the address of the first recipient,
two spaces, the rendering of the arrival time, and a line feed. A line whose
trimmed text is that ordinal selects that very message. -/
theorem C17_rows_and_ordinals (env : Env) (m : Messages) (hN : 1 ≤ m.length)
    (hlen : m.length < 2 ^ 63) (hrec : ∀ msg ∈ m, msg.Recipients ≠ []) :
    (Messages.rows env 0 m).1.length = m.length ∧
    (∀ stdin, ∃ evs, (Messages.Menu env m stdin).events = (Messages.rows env 0 m).1 ++ evs) ∧
    ∀ k (hk : k < m.length), ∃ r rs, m[k].Recipients = r :: rs ∧
      (Messages.rows env 0 m).1[k]? = some (.stdout (
        List.replicate (4 - (strconv.FormatUint (k + 1)).length) (Char.ofNat 32) ++
          strconv.FormatUint (k + 1) ++ "  ".toList ++ m[k].Id ++ m[k].QueueChar ++
          "  ".toList ++ r.Address ++ "  ".toList ++ env.TimeString m[k].Time.Time ++
          [Char.ofNat 10])) ∧
      ∀ (line : ReadResult) (rest : List ReadResult), line.err = false →
        strings.TrimSpace line.text = strconv.FormatUint (k + 1) →
        (Messages.Menu env m (line :: rest)).result = .returned m[k] none := by
  refine ⟨rows_length env m 0 hrec, ?_, ?_⟩
  · intro stdin
    exact ⟨_, by rw [Menu_unfold env m stdin hN hrec]⟩
  · intro k hk
    obtain ⟨r, rs, h1, h2⟩ := rows_get env m 0 k hk hrec
    refine ⟨r, rs, h1, ?_, ?_⟩
    · rw [h2]
      simp only [Messages.row, fmt.padInt, Nat.zero_add, FormatInt_succ, List.append_assoc]
    · intro line rest herr hline
      have hlen64 : m.length < 2 ^ 64 := lt_trans hlen (by norm_num)
      have hp : strconv.ParseUint (strings.TrimSpace line.text) = (k + 1, none) := by
        rw [hline]
        exact strconv.ParseUint_FormatUint _ (by omega)
      rw [Menu_unfold env m _ hN hrec, Menu_loop_number env m line rest _ herr hp hlen64]
      have hc : 0 < k + 1 ∧ k + 1 ≤ m.length := ⟨by omega, by omega⟩
      have hget : m[k + 1 - 1]? = some m[k] := by
        simp only [Nat.add_sub_cancel]
        exact List.getElem?_eq_getElem hk
      rw [if_pos hc, hget]

set_option maxRecDepth 100000 in
/-- The statement of C17 on a list of two messages: the second row, and the
selection by its ordinal. -/
theorem C17_rows_and_ordinals_witness :
    (Messages.rows (Env.sample []) 0 [Message.sample, Message.sample]).1[1]? =
      some (.stdout ("   2  ABC123!  a@x.com  -62135596800".toList ++ [Char.ofNat 10])) ∧
    (Messages.Menu (Env.sample []) [Message.sample, Message.sample]
      [ReadResult.line "2"]).result = .returned Message.sample none := by
  obtain ⟨r, rs, h1, h2, h3⟩ := (C17_rows_and_ordinals (Env.sample [])
    [Message.sample, Message.sample] (by decide) (by decide) (by decide)).2.2 1 (by decide)
  have hr : r = ⟨"a@x.com".toList, "mailbox full".toList⟩ := by
    have := (List.cons.inj h1).1
    exact this.symm
  subst hr
  refine ⟨?_, h3 (ReadResult.line "2") [] rfl (by decide)⟩
  rw [h2]
  decide

/-! ## C18: a chosen message and the empty queue id -/

theorem main_act_shown (env : Env) (postsuper postcat : Str) (n : Nat) (m : Message)
    (stdin : List ReadResult) :
    ∃ evs, (main.act env postsuper postcat n m stdin).events =
      menu.rows 0 verbs ++ [.stdout ("Select action: ".toList ++ " ".toList)] ++ evs := by
  unfold main.act menu
  cases stdin with
  | nil => exact ⟨[], by simp⟩
  | cons r rest =>
    simp only
    split
    · exact ⟨_, rfl⟩
    · exact ⟨_, rfl⟩

theorem main_select_returned (env : Env) (postsuper postcat : Str) (n : Nat) (m : Messages)
    (stdin rest : List ReadResult) (evs : List Event) (msg : Message)
    (h : Messages.Menu env m stdin = ⟨evs, .returned msg none, rest⟩) :
    main.select env postsuper postcat n m stdin =
      if msg.Id = [] then ⟨evs, .stop (.exit 0), rest⟩
      else ⟨evs ++ main.reasons env msg.Recipients ++
          (main.act env postsuper postcat n msg rest).events,
        (main.act env postsuper postcat n msg rest).next,
        (main.act env postsuper postcat n msg rest).rest⟩ := by
  unfold main.select
  rw [h]

set_option maxRecDepth 100000 in
/-- C18, counterexample. The record `Sample.noId`, which has every key of the
listing and an empty queue id, decodes to a message the operator can select.
On the line `1`, a valid choice, the session ends at message selection with
`os.Exit(0)`, as it does for a cancellation: nothing is printed after the
prompt, neither reasons nor the action menu. -/
theorem C18_counterexample_empty_id :
    fetchQueue.decode Sample.noId = .ok [{ Message.sample with Id := [] }] ∧
    main (Env.sample Sample.noId) 1 [ReadResult.line "1"] =
      ([.run "/usr/sbin/postqueue".toList ["-j".toList]] ++
        (Messages.rows (Env.sample Sample.noId) 0 [{ Message.sample with Id := [] }]).1 ++
        [.stdout (Messages.prompt [{ Message.sample with Id := [] }])], .exit 0) := by
  decide

/-- C18, amended. When the line read at message selection is the numeral of
`k` with `1 ≤ k ≤ N`, the message `m[k-1]` is chosen. If its queue id is not
empty the session does not end at message selection: the pass prints the
reasons of that message and goes on with the action menu for it. If its queue
id is empty the pass ends the process with `os.Exit(0)`, as for the line
`0`. -/
theorem C18_selection_proceeds (env : Env) (postsuper postcat : Str) (n : Nat)
    (m : Messages) (r : ReadResult) (rest : List ReadResult) (k : Nat)
    (hlen : m.length < 2 ^ 63) (hr : r.err = false) (h1 : 1 ≤ k) (hk : k ≤ m.length)
    (hline : strings.TrimSpace r.text = strconv.FormatUint k)
    (hread : (Messages.Menu env m (r :: rest)).rest = rest) :
    ∃ msg, m[k - 1]? = some msg ∧
      (msg.Id ≠ [] →
        main.select env postsuper postcat n m (r :: rest) =
          ⟨(Messages.rows env 0 m).1 ++ [.stdout (Messages.prompt m)] ++
              main.reasons env msg.Recipients ++
              (main.act env postsuper postcat n msg rest).events,
            (main.act env postsuper postcat n msg rest).next,
            (main.act env postsuper postcat n msg rest).rest⟩ ∧
        ∃ evs, (main.act env postsuper postcat n msg rest).events =
          menu.rows 0 verbs ++ [.stdout ("Select action: ".toList ++ " ".toList)] ++ evs) ∧
      (msg.Id = [] →
        main.select env postsuper postcat n m (r :: rest) =
          ⟨(Messages.rows env 0 m).1 ++ [.stdout (Messages.prompt m)],
            .stop (.exit 0), rest⟩) := by
  have hN : 1 ≤ m.length := le_trans h1 hk
  have hlen64 : m.length < 2 ^ 64 := lt_trans hlen (by norm_num)
  have hshown := Menu_shown_of_read env m r rest hN hread
  have hlt : k - 1 < m.length := by omega
  have hget : m[k - 1]? = some m[k - 1] := List.getElem?_eq_getElem hlt
  have hp : strconv.ParseUint (strings.TrimSpace r.text) = (k, none) := by
    rw [hline]
    exact strconv.ParseUint_FormatUint k (by omega)
  have hm : Messages.Menu env m (r :: rest) =
      ⟨(Messages.rows env 0 m).1 ++ [.stdout (Messages.prompt m)],
        .returned m[k - 1] none, rest⟩ := by
    unfold Messages.Menu
    rw [Menu_enter_shown env m _ _ hN hshown, Menu_loop_number env m r rest k hr hp hlen64,
      if_pos (show 0 < k ∧ k ≤ m.length from ⟨h1, hk⟩), hget]
  have hs := main_select_returned env postsuper postcat n m _ _ _ _ hm
  refine ⟨m[k - 1], hget, ?_, ?_⟩
  · intro hid
    rw [hs, if_neg hid]
    exact ⟨rfl, main_act_shown env postsuper postcat n _ rest⟩
  · intro hid
    rw [hs, if_pos hid]

set_option maxRecDepth 100000 in
/-- The statement of C18 on a list of two messages and the line `2`. -/
theorem C18_selection_proceeds_witness :
    ∃ evs, (main.select (Env.sample []) [] [] 0 [Message.sample, Message.sample]
        [ReadResult.line "2", ReadResult.line "5"]).events =
      (Messages.rows (Env.sample []) 0 [Message.sample, Message.sample]).1 ++
        [.stdout (Messages.prompt [Message.sample, Message.sample])] ++
        main.reasons (Env.sample []) Message.sample.Recipients ++
        (menu.rows 0 verbs ++ [.stdout ("Select action: ".toList ++ " ".toList)] ++ evs) := by
  obtain ⟨msg, hget, hgo, _⟩ := C18_selection_proceeds (Env.sample []) [] [] 0
    [Message.sample, Message.sample] (ReadResult.line "2") [ReadResult.line "5"] 2
    (by decide) rfl (by decide) (by decide) (by decide) (by decide)
  have hmsg : msg = Message.sample := by
    simp at hget
    exact hget.symm
  subst hmsg
  obtain ⟨hsel, evs, hact⟩ := hgo (by decide)
  exact ⟨evs, by rw [hsel, hact]⟩

end Qwork
